import Mathlib

/-
Verification of the GAME BUS MTY dashboard core logic (src/app.py).

Shallow embedding conventions:
* pandas numeric cells are embedded as `ℚ` (exact arithmetic); a cell that can
  hold NaN is `Option ℚ` (`none` = NaN).  All aggregations in `compute_monthly`
  skip NaN exactly as pandas `count` / `sum` / `mean` do.
* a DataFrame is a `List` of typed rows; groupby-plus-left-merge onto the fixed
  12-month base (app.py lines 248-275) is embedded as a per-month filter over
  the canonical month list, which preserves the merge's row-duplication
  behaviour for duplicate keys on the right table (the Funnel merge, line 294).
* dates parsed by `pd.to_datetime(..., errors="coerce")` are `Option PDate`
  (`none` = NaT / unparseable); times parsed through `_combine_dt`'s
  `strftime("%H:%M")` round-trip are minute-of-day values `Option ℕ`
  (`none` = missing / blank / unparseable), since that round-trip drops seconds.
-/

namespace GameBus

/-! ### Rounding (DataFrame.round(2), app.py lines 307-310)

`Series.round(2)` rounds each value to 2 decimal places with round-half-to-even
(numpy rounding).  On exact rationals this is `roundHalfEven (100*q) / 100`. -/

def roundHalfEven (q : ℚ) : ℤ :=
  if q - ⌊q⌋ < 1/2 then ⌊q⌋
  else if 1/2 < q - ⌊q⌋ then ⌊q⌋ + 1
  else if ⌊q⌋ % 2 = 0 then ⌊q⌋ else ⌊q⌋ + 1

def round2 (q : ℚ) : ℚ := (roundHalfEven (100 * q) : ℚ) / 100

/-- A cent-precision currency amount (spec section 3 models prices, variable
costs, pizza margins and the fixed monthly cost as currency amounts; those are
exact multiples of 1/100). -/
def centMul (q : ℚ) : Prop := ∃ n : ℤ, q = (n : ℚ) / 100

/-! ### Month constants (app.py lines 28-30, 45-49) -/

def SPANISH_MONTHS : List String :=
  ["Ene", "Feb", "Mar", "Abr", "May", "Jun",
   "Jul", "Ago", "Sep", "Oct", "Nov", "Dic"]

/-- `month_to_num` (app.py line 45): index in the Spanish month list plus one,
`0` when the name is unknown (the `except` branch). -/
def month_to_num (m : String) : ℕ :=
  if m ∈ SPANISH_MONTHS then SPANISH_MONTHS.indexOf m + 1 else 0

def APPLY_FIXED_FROM_MONTH : ℕ := 10

/-! ### Event-log normalizer (ensure_eventlog_columns, app.py lines 72-103)

The `ID` column after `pd.to_numeric(df["ID"], errors="coerce")` (line 83) is a
numeric column with NaN for unparseable entries: `List (Option ℚ)`.
The required columns added on lines 78-80 are structural in the typed
embedding.  The `Estatus` column before normalization is `Option String`. -/

structure RawEvent where
  id : Option ℚ
  estatus : Option String
deriving DecidableEq

structure NormEvent where
  id : ℤ
  estatus : String
deriving DecidableEq

/-- Python `int(...)` on a numeric value truncates toward zero. -/
def pytrunc (q : ℚ) : ℤ := if 0 ≤ q then ⌊q⌋ else ⌈q⌉

/-- Maximum of a list of rationals (pandas `Series.max()` over the non-null
values; the list is nonempty whenever this is used). -/
def listMax : List ℚ → ℚ
  | [] => 0
  | x :: xs => xs.foldl max x

/-- Lines 89-93: fill the NaN ids, in positional order, with
`max_id+1, max_id+2, ...`. -/
def fillNone : List (Option ℚ) → ℤ → List ℚ
  | [], _ => []
  | none :: xs, m => ((m + 1 : ℤ) : ℚ) :: fillNone xs (m + 1)
  | some q :: xs, m => q :: fillNone xs m

/-- Lines 95-99: `duplicated(keep="first")` marks a position whose value
already occurred earlier (in the array as it was when the mask was computed,
which the accumulating `seen` list of original values reproduces); each marked
position gets the next fresh `max_id + 1`. -/
def reassignDups : List ℚ → List ℚ → ℤ → List ℚ
  | [], _, _ => []
  | q :: xs, seen, m =>
    if q ∈ seen then ((m + 1 : ℤ) : ℚ) :: reassignDups xs (q :: seen) (m + 1)
    else q :: reassignDups xs (q :: seen) m

/-- The id pipeline of `ensure_eventlog_columns` (lines 83-101):
all-NaN column gets `1..N` (line 85); otherwise NaN ids are filled above the
current maximum, then non-first duplicates are reassigned, and finally
`astype(int)` truncates every value (line 101). -/
def ensure_ids (ids : List (Option ℚ)) : List ℤ :=
  if ids.all (·.isNone) then
    (List.range ids.length).map (fun i : ℕ => (i : ℤ) + 1)
  else
    let m0 : ℤ := pytrunc (listMax (ids.filterMap (fun x => x)))
    let filled := fillNone ids m0
    let m1 : ℤ := m0 + (ids.countP (·.isNone) : ℤ)
    (reassignDups filled [] m1).map pytrunc

/-- Line 102: `fillna("Pendiente").replace({"": "Pendiente"})`. -/
def fillStatus : Option String → String
  | none => "Pendiente"
  | some t => if t = "" then "Pendiente" else t

def ensure_eventlog_columns (rows : List RawEvent) : List NormEvent :=
  (ensure_ids (rows.map (·.id))).zipWith
    (fun i r => { id := i, estatus := fillStatus r.estatus }) rows

/-- A normalized row viewed again as a raw row (what `ensure_eventlog_columns`
sees when it is re-applied to its own output on the next load). -/
def normToRaw (e : NormEvent) : RawEvent :=
  { id := some ((e.id : ℚ)), estatus := some e.estatus }

/-! ### Dates, times, instants -/

/-- A date as parsed by `pd.to_datetime(..., errors="coerce")` when it is not
NaT. -/
structure PDate where
  year : ℕ
  month : ℕ
  day : ℕ
deriving DecidableEq

/-- Ranges guaranteed by a successful pandas date parse (`pd.Timestamp` years
lie in 1677..2262). -/
def PDate.validRange (d : PDate) : Prop :=
  d.year < 10000 ∧ 0 < d.month ∧ d.month ≤ 12 ∧ 0 < d.day ∧ d.day ≤ 31

def isLeap (y : ℕ) : Bool :=
  y % 4 == 0 && (y % 100 != 0 || y % 400 == 0)

/-- Cumulative day counts before each month (non-leap). -/
def cumDays (m : ℕ) : ℕ :=
  [0, 31, 59, 90, 120, 151, 181, 212, 243, 273, 304, 334].getD (m - 1) 0

/-- Proleptic Gregorian day number, so that date arithmetic on `datetime`
values can be embedded as integer arithmetic. -/
def dayNumber (d : PDate) : ℤ :=
  let y : ℤ := d.year
  365 * (y - 1) + (y - 1) / 4 - (y - 1) / 100 + (y - 1) / 400
    + (cumDays d.month : ℤ)
    + (if isLeap d.year ∧ 3 ≤ d.month then 1 else 0)
    + d.day

/-- A `datetime` instant, in minutes (second components are always zero here:
`_combine_dt` rebuilds every time through `strptime(h_str, "%H:%M")`). -/
def instant (d : PDate) (minute : ℕ) : ℤ := 1440 * dayNumber d + minute

/-! ### Event rows as consumed by compute_monthly and the calendar code -/

structure EventRow where
  fecha : Option PDate
  hora : Option ℕ
  horaFin : Option ℕ
  precio : Option ℚ
  margenPizza : Option ℚ
  costoVar : Option ℚ
  estatus : String
deriving DecidableEq

/-! ### _combine_dt (app.py lines 160-172) and the shared start/end logic

`_combine_dt(fecha, hora, fallback)` returns `None` iff the date does not
parse; otherwise it combines the date with the parsed time-of-day, or with the
fallback minute when the time is missing/blank/unparseable.  The same
start/end computation appears twice in the source: in `to_ics`
(lines 177-182) and in `events_to_fullcalendar.build_iso` (lines 444-454);
both pass "10:00" (minute 600) as the start fallback and the start's own
"%H:%M" rendering (i.e. the start minute) as the end fallback, and both
replace the end with start + 2 hours when it is missing or not strictly after
the start. -/

def combine_dt (fecha : Option PDate) (hora : Option ℕ) (fallback : ℕ) :
    Option (PDate × ℕ) :=
  match fecha with
  | none => none
  | some d =>
    match hora with
    | some h => some (d, h)
    | none => some (d, fallback)

/-- Start datetime plus end instant for one event row; `none` iff the date is
missing/unparseable. -/
def computeStartEnd (fecha : Option PDate) (hora horaFin : Option ℕ) :
    Option ((PDate × ℕ) × ℤ) :=
  match combine_dt fecha hora 600 with
  | none => none
  | some s =>
    let startI : ℤ := instant s.1 s.2
    let endI : ℤ :=
      match combine_dt fecha horaFin s.2 with
      | none => startI + 120
      | some e => if instant e.1 e.2 ≤ startI then startI + 120 else instant e.1 e.2
    some (s, endI)

/-! ### UID rendering (app.py line 184)

`uid = f"{dtstart.strftime('%Y%m%dT%H%M%S')}-gamebus@agenda"`; seconds are
always "00" (see `_combine_dt`). -/

def digitChar (n : ℕ) : Char := Char.ofNat (48 + n)

def pad2 (n : ℕ) : List Char := [digitChar (n / 10), digitChar (n % 10)]

def pad4 (n : ℕ) : List Char :=
  [digitChar (n / 1000), digitChar (n / 100 % 10), digitChar (n / 10 % 10),
   digitChar (n % 10)]

def uidString (d : PDate) (minute : ℕ) : String :=
  String.mk (pad4 d.year ++ pad2 d.month ++ pad2 d.day ++ ['T']
    ++ pad2 (minute / 60) ++ pad2 (minute % 60) ++ ['0', '0']
    ++ "-gamebus@agenda".data)

/-! ### to_ics (app.py lines 174-205) and events_to_fullcalendar (438-483)

The embedding keeps, per emitted VEVENT / calendar entry, the fields the
claims are about: the UID line, the start datetime and the end instant.  The
VCALENDAR header/footer, DTSTAMP (wall-clock `utcnow`), SUMMARY/LOCATION/
DESCRIPTION text and display colors are presentation-layer string rendering,
outside the embedded scope.  Rows whose date does not parse are skipped
(`continue` at line 179, `if not start: continue` at line 459). -/

structure VEvent where
  uid : String
  dtstart : PDate × ℕ
  dtendInstant : ℤ
deriving DecidableEq

structure CalEntry where
  start : PDate × ℕ
  endInstant : ℤ
deriving DecidableEq

def to_ics (rows : List EventRow) : List VEvent :=
  rows.filterMap (fun r =>
    (computeStartEnd r.fecha r.hora r.horaFin).map (fun se =>
      { uid := uidString se.1.1 se.1.2, dtstart := se.1, dtendInstant := se.2 }))

def events_to_fullcalendar (rows : List EventRow) : List CalEntry :=
  rows.filterMap (fun r =>
    (computeStartEnd r.fecha r.hora r.horaFin).map (fun se =>
      { start := se.1, endInstant := se.2 }))

/-! ### compute_monthly (app.py lines 221-318) -/

/-- `get_assumption` (lines 133-142): first matching `Variable` row's `Valor`,
else the caller default.  `Valor` cells are numeric in the embedding (the
`float(...)`/`except` fallback for non-numeric cells also yields the default). -/
def get_assumption (assumptions : List (String × ℚ)) (v : String) (dflt : ℚ) : ℚ :=
  match assumptions.lookup v with
  | some x => x
  | none => dflt

/-- ASCII lowercasing, as `Series.str.lower()` acts on the status values
(`"Pendiente"`/`"Efectuado"` and their case variants are ASCII). -/
def strToLower (s : String) : String := String.mk (s.data.map Char.toLower)

/-- Line 236: keep only rows whose status lowercases to "efectuado". -/
def efectuadoRows (ev : List EventRow) : List EventRow :=
  ev.filter (fun r => strToLower r.estatus == "efectuado")

/-- The rows of one month group (line 240 maps `Fecha.dt.month` through
`MONTH_NAME_MAP`; grouping by the resulting name is grouping by month
number). -/
def monthRows (ev : List EventRow) (mnum : ℕ) : List EventRow :=
  ev.filter (fun r => r.fecha.map PDate.month == some mnum)

/-- `("Precio (MXN)", "count")`: pandas counts the non-null prices. -/
def monthEventos (ev : List EventRow) (mnum : ℕ) : ℚ :=
  (((monthRows ev mnum).filter (fun r => r.precio.isSome)).length : ℚ)

/-- `("Precio (MXN)", "sum")` (NaN-skipping). -/
def monthIngresos (ev : List EventRow) (mnum : ℕ) : ℚ :=
  ((monthRows ev mnum).filterMap (·.precio)).sum

/-- Lines 251 and 261-267: explicit variable costs summed (NaN-skipping), plus
the per-month count of missing variable costs times the configured default. -/
def monthCostoVar (ev : List EventRow) (mnum : ℕ) (cvDefault : ℚ) : ℚ :=
  ((monthRows ev mnum).filterMap (·.costoVar)).sum
    + (((monthRows ev mnum).filter (fun r => r.costoVar.isNone)).length : ℚ) * cvDefault

/-- `("Margen Pizza (MXN)", "sum")` (NaN-skipping). -/
def monthMargen (ev : List EventRow) (mnum : ℕ) : ℚ :=
  ((monthRows ev mnum).filterMap (·.margenPizza)).sum

/-- Monthly summary row; every cell the claims touch.  `reservasMeta` is the
only output column that can still be NaN after line 295 (hence `Option ℚ`);
the seven columns rounded on lines 307-308 and the two on lines 309-310 are
rounded in `roundRow` (`Eventos` is not in either rounding list).  The
`Add-ons Pizza (#)` and `Adopción Retro (%)` columns (free-text yes/no
parsing, lines 241-246) feed no claim and are not embedded. -/
structure MonthRow where
  mes : String
  eventos : ℚ
  precioPromedio : ℚ
  ingresos : ℚ
  costoVariable : ℚ
  gastosFijos : ℚ
  margenPizza : ℚ
  utilidadNeta : ℚ
  arpuReal : ℚ
  reservasMeta : Option ℚ
  resenasNuevas : ℚ
deriving DecidableEq

def roundRow (r : MonthRow) : MonthRow :=
  { r with
    precioPromedio := round2 r.precioPromedio
    ingresos := round2 r.ingresos
    costoVariable := round2 r.costoVariable
    gastosFijos := round2 r.gastosFijos
    margenPizza := round2 r.margenPizza
    utilidadNeta := round2 r.utilidadNeta
    arpuReal := round2 r.arpuReal
    reservasMeta := r.reservasMeta.map round2
    resenasNuevas := round2 r.resenasNuevas }

/-- One month's pre-rounding row, given its `Reservas/Meta (%)` cell.
Lines 249-259 (aggregation), 261-267 (variable-cost backfill), 283-285 (fixed
cost from `month_to_num` against `APPLY_FIXED_FROM_MONTH`), 287 (net profit),
288 (ARPU via `np.where`), 300-305 (reviews carried from the `Monthly` sheet
by month key; `set_index`/`map` requires unique month keys there, so the sheet
is embedded as a key-value list read through `lookup`). -/
def baseRow (cvDefault gastoFijoMensual : ℚ) (ev : List EventRow)
    (monthly : List (String × ℚ)) (mes : String) (res : Option ℚ) : MonthRow :=
  let mnum := month_to_num mes
  let eventos := monthEventos ev mnum
  let ingresos := monthIngresos ev mnum
  let costoVar := monthCostoVar ev mnum cvDefault
  let gastos : ℚ := if APPLY_FIXED_FROM_MONTH ≤ mnum then gastoFijoMensual else 0
  let margen := monthMargen ev mnum
  { mes := mes
    eventos := eventos
    precioPromedio := if 0 < eventos then ingresos / eventos else 0
    ingresos := ingresos
    costoVariable := costoVar
    gastosFijos := gastos
    margenPizza := margen
    utilidadNeta := ingresos - costoVar - gastos + margen
    arpuReal := if 0 < eventos then ingresos / eventos else 0
    reservasMeta := res
    resenasNuevas := (monthly.lookup mes).getD 0 }

/-- The `Reservas/Meta (%)` cells a month row receives (lines 290-298).  An
empty Funnel sheet (or one missing the needed columns) yields the constant 0
column; otherwise the left merge on `Mes` gives one copy of the month row per
matching Funnel row (none matching leaves one row with a NaN `_Reservas`), and
`np.where(Eventos > 0, _Reservas / Eventos * 100, 0)` turns each cell into the
ratio (NaN when `_Reservas` is NaN) when the month has events, else 0. -/
def funnelCells (funnel : List (String × ℚ)) (mes : String) (eventos : ℚ) :
    List (Option ℚ) :=
  if funnel.isEmpty then [some 0]
  else
    match (funnel.filter (fun p => p.1 == mes)).map (fun p => p.2) with
    | [] => [if 0 < eventos then none else some 0]
    | rs => rs.map (fun r => some (if 0 < eventos then r / eventos * 100 else 0))

/-- `compute_monthly` (lines 221-318).  The 12-row base in canonical month
order is built first (line 222); all derived columns come from the Completed
("Efectuado") rows only; after the Funnel merge and the reviews carry-over the
monetary and percentage columns are rounded to 2 decimals and the table is
re-sorted by the categorical month order (a no-op on rows generated in
canonical order). -/
def compute_monthly (assumptions : List (String × ℚ)) (eventLog : List EventRow)
    (funnel : List (String × ℚ)) (monthly : List (String × ℚ)) : List MonthRow :=
  let cvDefault := get_assumption assumptions "Costo variable por evento (MXN)" 0
  let gastoFijoMensual := get_assumption assumptions "Gastos fijos mensuales (MXN)" 0
  let ev := efectuadoRows eventLog
  (SPANISH_MONTHS.flatMap (fun mes =>
    (funnelCells funnel mes (monthEventos ev (month_to_num mes))).map
      (fun res => baseRow cvDefault gastoFijoMensual ev monthly mes res))).map
    roundRow

/-- Fallback row for positional (`getD`) access in concrete statements. -/
def mr0 : MonthRow :=
  { mes := "", eventos := 0, precioPromedio := 0, ingresos := 0,
    costoVariable := 0, gastosFijos := 0, margenPizza := 0, utilidadNeta := 0,
    arpuReal := 0, reservasMeta := none, resenasNuevas := 0 }

/-- Validity of the fields a parsed event row can contain (successful date
parse, time-of-day in minutes). -/
def rowValid (r : EventRow) : Prop :=
  (∀ d, r.fecha = some d → d.validRange) ∧ (∀ h, r.hora = some h → h < 1440)

/-- A rational that is (exactly) an integer. -/
def isIntQ (q : ℚ) : Prop := ∃ n : ℤ, q = (n : ℚ)

/-- Every non-null id in the raw `ID` column is an integral numeric value. -/
def intIds (ids : List (Option ℚ)) : Prop := ∀ q : ℚ, some q ∈ ids → isIntQ q

/-! ## Lemmas: rounding -/

theorem roundHalfEven_intCast (n : ℤ) : roundHalfEven ((n : ℤ) : ℚ) = n := by
  unfold roundHalfEven
  rw [Int.floor_intCast]
  norm_num

theorem centMul.round2_eq {q : ℚ} (h : centMul q) : round2 q = q := by
  obtain ⟨n, rfl⟩ := h
  unfold round2
  have h100 : (100 : ℚ) * ((n : ℚ) / 100) = ((n : ℤ) : ℚ) := by field_simp
  rw [h100, roundHalfEven_intCast]

theorem centMul_zero : centMul 0 := ⟨0, by norm_num⟩

theorem round2_zero : round2 0 = 0 := centMul.round2_eq centMul_zero

theorem centMul_add {a b : ℚ} (ha : centMul a) (hb : centMul b) :
    centMul (a + b) := by
  obtain ⟨m, rfl⟩ := ha
  obtain ⟨n, rfl⟩ := hb
  exact ⟨m + n, by push_cast; ring⟩

theorem centMul_neg {a : ℚ} (ha : centMul a) : centMul (-a) := by
  obtain ⟨m, rfl⟩ := ha
  exact ⟨-m, by push_cast; ring⟩

theorem centMul_sub {a b : ℚ} (ha : centMul a) (hb : centMul b) :
    centMul (a - b) := by
  rw [sub_eq_add_neg]
  exact centMul_add ha (centMul_neg hb)

theorem centMul_sum {l : List ℚ} (h : ∀ x ∈ l, centMul x) : centMul l.sum := by
  induction l with
  | nil => simpa using centMul_zero
  | cons x xs ih =>
    rw [List.sum_cons]
    exact centMul_add (h x (by simp)) (ih fun y hy => h y (by simp [hy]))

theorem centMul_natCast_mul {q : ℚ} (k : ℕ) (h : centMul q) :
    centMul ((k : ℚ) * q) := by
  obtain ⟨n, rfl⟩ := h
  exact ⟨k * n, by push_cast; ring⟩

/-! ## Lemmas: start/end instants of calendar entries -/

theorem combine_dt_none (hora : Option ℕ) (f : ℕ) :
    combine_dt none hora f = none := rfl

theorem computeStartEnd_isSome (fecha : Option PDate) (hora horaFin : Option ℕ) :
    (computeStartEnd fecha hora horaFin).isSome = fecha.isSome := by
  cases fecha <;> cases hora <;> cases horaFin <;> rfl

theorem optionMap_isSome {α β : Type} (f : α → β) (o : Option α) :
    (o.map f).isSome = o.isSome := by
  cases o <;> rfl

theorem endI_flip (d : PDate) (sm em : ℕ) :
    (if instant d em ≤ instant d sm then instant d sm + 120 else instant d em)
      = (if instant d sm < instant d em then instant d em
         else instant d sm + 120) := by
  rcases lt_or_le (instant d sm) (instant d em) with hlt | hle
  · rw [if_neg (not_le.mpr hlt), if_pos hlt]
  · rw [if_pos hle, if_neg (not_lt.mpr hle)]

theorem filterMapProj_length {β : Type} (g : EventRow → Option β)
    (hg : ∀ r, (g r).isSome = r.fecha.isSome) (rows : List EventRow) :
    (rows.filterMap g).length = (rows.filter (fun r => r.fecha.isSome)).length := by
  induction rows with
  | nil => rfl
  | cons r rs ih =>
    rw [List.filterMap_cons, List.filter_cons]
    cases hgr : g r with
    | none =>
      have : r.fecha.isSome = false := by rw [← hg r, hgr]; rfl
      simpa [this] using ih
    | some b =>
      have : r.fecha.isSome = true := by rw [← hg r, hgr]; rfl
      simpa [this] using ih

/-- C7.  For every event record whose date parses, the end instant of the
projected calendar entry (the shared start/end computation of
`events_to_fullcalendar` and `to_ics`) is date + end-time when that is
strictly after the start instant, and otherwise — end time missing,
unparseable, or not strictly after the start — it is the start instant plus
exactly 2 hours (120 minutes); in particular an event with a date but no end
time gets end = start + 120 minutes. -/
theorem calendar_end_instant_rule (fecha : Option PDate) (hora horaFin : Option ℕ)
    (d : PDate) (h : fecha = some d) :
    computeStartEnd fecha hora horaFin =
      some ((d, hora.getD 600),
        match horaFin with
        | some em =>
          if instant d (hora.getD 600) < instant d em then instant d em
          else instant d (hora.getD 600) + 120
        | none => instant d (hora.getD 600) + 120) := by
  subst h
  cases hora with
  | none =>
    cases horaFin with
    | none =>
      simp only [computeStartEnd, combine_dt, Option.getD_none]
      rw [if_pos le_rfl]
    | some em =>
      simp only [computeStartEnd, combine_dt, Option.getD_none]
      rw [endI_flip]
  | some sm =>
    cases horaFin with
    | none =>
      simp only [computeStartEnd, combine_dt, Option.getD_some]
      rw [if_pos le_rfl]
    | some em =>
      simp only [computeStartEnd, combine_dt, Option.getD_some]
      rw [endI_flip]

/-- Witness for C7 at a concrete input: a 2025-03-10 event starting 10:00
with no end time gets end = start + 120 minutes. -/
theorem calendar_end_instant_rule_witness :
    computeStartEnd (some ⟨2025, 3, 10⟩) (some 600) none =
      some ((⟨2025, 3, 10⟩, 600), instant ⟨2025, 3, 10⟩ 600 + 120) :=
  calendar_end_instant_rule (some ⟨2025, 3, 10⟩) (some 600) none ⟨2025, 3, 10⟩ rfl

/-- C8.  Every event whose date is missing or unparseable is excluded from the
calendar projection and from the ICS export (its start/end computation yields
nothing), and every remaining event contributes exactly one entry to each:
both outputs have exactly as many entries as there are rows with a parseable
date.  Both embedded functions are total, so no error is raised. -/
theorem calendar_skips_unparseable_dates (rows : List EventRow) :
    (events_to_fullcalendar rows).length
        = (rows.filter (fun r => r.fecha.isSome)).length ∧
      (to_ics rows).length = (rows.filter (fun r => r.fecha.isSome)).length ∧
      ∀ r ∈ rows, r.fecha = none →
        computeStartEnd r.fecha r.hora r.horaFin = none := by
  refine ⟨?_, ?_, ?_⟩
  · exact filterMapProj_length _
      (fun r => by rw [optionMap_isSome]; exact computeStartEnd_isSome _ _ _) rows
  · exact filterMapProj_length _
      (fun r => by rw [optionMap_isSome]; exact computeStartEnd_isSome _ _ _) rows
  · intro r _ hnone
    rw [hnone]
    rfl

/-- Witness for C8 at a concrete input: one row with a parseable date and one
with an unparseable (NaT) date yield exactly one calendar entry and one ICS
entry. -/
theorem calendar_skips_unparseable_dates_witness :
    (events_to_fullcalendar
        [⟨some ⟨2025, 3, 10⟩, some 600, none, some 1000, none, none, "Pendiente"⟩,
         ⟨none, some 600, none, some 1000, none, none, "Pendiente"⟩]).length
      = ([⟨some ⟨2025, 3, 10⟩, some 600, none, some 1000, none, none, "Pendiente"⟩,
          (⟨none, some 600, none, some 1000, none, none, "Pendiente"⟩ : EventRow)].filter
            (fun r => r.fecha.isSome)).length ∧
    (to_ics
        [⟨some ⟨2025, 3, 10⟩, some 600, none, some 1000, none, none, "Pendiente"⟩,
         ⟨none, some 600, none, some 1000, none, none, "Pendiente"⟩]).length
      = ([⟨some ⟨2025, 3, 10⟩, some 600, none, some 1000, none, none, "Pendiente"⟩,
          (⟨none, some 600, none, some 1000, none, none, "Pendiente"⟩ : EventRow)].filter
            (fun r => r.fecha.isSome)).length :=
  ⟨(calendar_skips_unparseable_dates _).1, (calendar_skips_unparseable_dates _).2.1⟩

/-! ## Lemmas: UID rendering -/

theorem digitChar_inj {a b : ℕ} (ha : a < 10) (hb : b < 10)
    (h : digitChar a = digitChar b) : a = b := by
  interval_cases a <;> interval_cases b <;> revert h <;> decide

theorem computeStartEnd_start {fecha : Option PDate} {hora horaFin : Option ℕ}
    {se : (PDate × ℕ) × ℤ} (h : computeStartEnd fecha hora horaFin = some se) :
    ∃ d, fecha = some d ∧ se.1 = (d, hora.getD 600) := by
  obtain ⟨⟨sd, sm⟩, eI⟩ := se
  cases fecha with
  | none => simp [computeStartEnd, combine_dt] at h
  | some d =>
    refine ⟨d, rfl, ?_⟩
    cases hora <;> cases horaFin <;>
      simp only [computeStartEnd, combine_dt, Option.some.injEq, Prod.mk.injEq] at h <;>
      obtain ⟨⟨h1, h2⟩, -⟩ := h <;>
      subst h1 <;> subst h2 <;> rfl

theorem uidString_inj {d1 d2 : PDate} {m1 m2 : ℕ}
    (h1 : d1.validRange) (h2 : d2.validRange) (hm1 : m1 < 1440) (hm2 : m2 < 1440)
    (h : uidString d1 m1 = uidString d2 m2) : d1 = d2 ∧ m1 = m2 := by
  obtain ⟨y1, mo1, da1⟩ := d1
  obtain ⟨y2, mo2, da2⟩ := d2
  dsimp only [PDate.validRange] at h1 h2
  obtain ⟨hy1, hmo1, hmo1b, hda1, hda1b⟩ := h1
  obtain ⟨hy2, hmo2, hmo2b, hda2, hda2b⟩ := h2
  have h' := congrArg String.data h
  dsimp only [uidString] at h'
  simp only [pad4, pad2, List.cons_append, List.nil_append,
    List.cons.injEq] at h'
  obtain ⟨e1, e2, e3, e4, e5, e6, e7, e8, e9, e10, e11, e12, e13, -⟩ := h'
  have g1 := digitChar_inj (by omega) (by omega) e1
  have g2 := digitChar_inj (by omega) (by omega) e2
  have g3 := digitChar_inj (by omega) (by omega) e3
  have g4 := digitChar_inj (by omega) (by omega) e4
  have g5 := digitChar_inj (by omega) (by omega) e5
  have g6 := digitChar_inj (by omega) (by omega) e6
  have g7 := digitChar_inj (by omega) (by omega) e7
  have g8 := digitChar_inj (by omega) (by omega) e8
  have g10 := digitChar_inj (by omega) (by omega) e10
  have g11 := digitChar_inj (by omega) (by omega) e11
  have g12 := digitChar_inj (by omega) (by omega) e12
  have g13 := digitChar_inj (by omega) (by omega) e13
  refine ⟨?_, ?_⟩
  · have : y1 = y2 := by omega
    have : mo1 = mo2 := by omega
    have : da1 = da2 := by omega
    simp_all
  · omega

/-- C9, corrected.  The per-event identifier in the ICS export is derived from
the start instant alone, so distinct events sharing a start instant share a
UID (counterexample below); what does hold is that any two exported entries
with equal UID lines have equal start datetimes, i.e. UIDs are unique across
the export as soon as all start instants are distinct. -/
theorem ics_uid_uniqueness (rows : List EventRow) (hv : ∀ r ∈ rows, rowValid r) :
    ∀ e1 ∈ to_ics rows, ∀ e2 ∈ to_ics rows,
      e1.uid = e2.uid → e1.dtstart = e2.dtstart := by
  intro e1 h1 e2 h2 hu
  rw [to_ics, List.mem_filterMap] at h1 h2
  obtain ⟨r1, hr1, hm1⟩ := h1
  obtain ⟨r2, hr2, hm2⟩ := h2
  rw [Option.map_eq_some'] at hm1 hm2
  obtain ⟨se1, hc1, rfl⟩ := hm1
  obtain ⟨se2, hc2, rfl⟩ := hm2
  obtain ⟨d1, hf1, hs1⟩ := computeStartEnd_start hc1
  obtain ⟨d2, hf2, hs2⟩ := computeStartEnd_start hc2
  have hval1 : d1.validRange := (hv r1 hr1).1 d1 hf1
  have hval2 : d2.validRange := (hv r2 hr2).1 d2 hf2
  have hmin1 : se1.1.2 < 1440 := by
    rw [hs1]
    cases hh : r1.hora with
    | none => norm_num
    | some m => exact (hv r1 hr1).2 m hh
  have hmin2 : se2.1.2 < 1440 := by
    rw [hs2]
    cases hh : r2.hora with
    | none => norm_num
    | some m => exact (hv r2 hr2).2 m hh
  have hd1 : se1.1.1 = d1 := by rw [hs1]
  have hd2 : se2.1.1 = d2 := by rw [hs2]
  have huid : uidString se1.1.1 se1.1.2 = uidString se2.1.1 se2.1.2 := hu
  rw [hd1, hd2] at huid
  have hkey := uidString_inj hval1 hval2 hmin1 hmin2 huid
  show se1.1 = se2.1
  have : se1.1.1 = se2.1.1 := by rw [hd1, hd2, hkey.1]
  exact Prod.ext this hkey.2

/-- Counterexample for C9 as stated: two distinct events (same date and start
time, different price) produce VEVENT blocks with the same UID line. -/
theorem ics_uid_uniqueness_cex :
    (⟨some ⟨2025, 3, 10⟩, some 600, none, some 1000, none, none,
        "Pendiente"⟩ : EventRow)
      ≠ ⟨some ⟨2025, 3, 10⟩, some 600, none, some 2000, none, none, "Pendiente"⟩ ∧
    (to_ics
        [⟨some ⟨2025, 3, 10⟩, some 600, none, some 1000, none, none, "Pendiente"⟩,
         ⟨some ⟨2025, 3, 10⟩, some 600, none, some 2000, none, none,
           "Pendiente"⟩]).map (fun e => e.uid)
      = ["20250310T100000-gamebus@agenda", "20250310T100000-gamebus@agenda"] := by
  refine ⟨by decide, ?_⟩
  rfl

/-- Witness for the corrected C9 at a concrete input: two same-start entries
have (by the theorem, from their equal UIDs) equal start datetimes. -/
theorem ics_uid_uniqueness_witness :
    ((to_ics
        [⟨some ⟨2025, 3, 10⟩, some 600, none, some 1000, none, none, "Pendiente"⟩,
         ⟨some ⟨2025, 3, 10⟩, some 600, none, some 2000, none, none,
           "Pendiente"⟩]).getD 0 ⟨"", (⟨0, 0, 0⟩, 0), 0⟩).dtstart
      = ((to_ics
        [⟨some ⟨2025, 3, 10⟩, some 600, none, some 1000, none, none, "Pendiente"⟩,
         ⟨some ⟨2025, 3, 10⟩, some 600, none, some 2000, none, none,
           "Pendiente"⟩]).getD 1 ⟨"", (⟨0, 0, 0⟩, 0), 0⟩).dtstart := by
  have hval : PDate.validRange ⟨2025, 3, 10⟩ := by
    refine ⟨?_, ?_, ?_, ?_, ?_⟩ <;> norm_num
  have hv : ∀ r ∈
      ([⟨some ⟨2025, 3, 10⟩, some 600, none, some 1000, none, none, "Pendiente"⟩,
        ⟨some ⟨2025, 3, 10⟩, some 600, none, some 2000, none, none,
          "Pendiente"⟩] : List EventRow), rowValid r := by
    intro r hr
    simp only [List.mem_cons, List.not_mem_nil, or_false] at hr
    rcases hr with rfl | rfl <;>
      exact ⟨fun d hd => by injection hd with h2; rw [← h2]; exact hval,
             fun h hh => by injection hh with h2; omega⟩
  exact ics_uid_uniqueness _ hv _ (by decide) _ (by decide) (by decide)

/-! ## Lemmas: compute_monthly structure -/

theorem compute_monthly_mem {A : List (String × ℚ)} {ev : List EventRow}
    {funnel monthly : List (String × ℚ)} {row : MonthRow}
    (h : row ∈ compute_monthly A ev funnel monthly) :
    ∃ mes res, mes ∈ SPANISH_MONTHS ∧
      res ∈ funnelCells funnel mes
        (monthEventos (efectuadoRows ev) (month_to_num mes)) ∧
      row = roundRow
        (baseRow (get_assumption A "Costo variable por evento (MXN)" 0)
          (get_assumption A "Gastos fijos mensuales (MXN)" 0)
          (efectuadoRows ev) monthly mes res) := by
  simp only [compute_monthly, List.mem_map, List.mem_flatMap] at h
  obtain ⟨r', ⟨mes, hmes, res, hres, hbase⟩, rfl⟩ := h
  exact ⟨mes, res, hmes, hres, by rw [← hbase]⟩

theorem getD_mem_of_lt {α : Type} {l : List α} {i : ℕ} (d : α) (h : i < l.length) :
    l.getD i d ∈ l := by
  rw [List.getD_eq_getElem l d h]
  exact List.getElem_mem h

theorem monthRows_subset {ev : List EventRow} {mnum : ℕ} {r : EventRow}
    (h : r ∈ monthRows (efectuadoRows ev) mnum) : r ∈ ev := by
  have h1 := List.mem_filter.mp h
  exact (List.mem_filter.mp h1.1).1

/-- C1.  In every month row of the rollup, net profit = revenue − total
variable cost − fixed cost + pizza margin (the pizza margin is added back, not
subtracted).  The monetary inputs — prices, explicit variable costs, pizza
margins, the configured default variable cost and the configured fixed
monthly cost — are currency amounts (spec section 3), i.e. cent-precision
rationals, which the 2-decimal output rounding leaves unchanged. -/
theorem monthly_net_profit_formula (A : List (String × ℚ)) (ev : List EventRow)
    (funnel monthly : List (String × ℚ))
    (hp : ∀ r ∈ ev, ∀ q, r.precio = some q → centMul q)
    (hc : ∀ r ∈ ev, ∀ q, r.costoVar = some q → centMul q)
    (hm : ∀ r ∈ ev, ∀ q, r.margenPizza = some q → centMul q)
    (hcd : centMul (get_assumption A "Costo variable por evento (MXN)" 0))
    (hgf : centMul (get_assumption A "Gastos fijos mensuales (MXN)" 0)) :
    ∀ row ∈ compute_monthly A ev funnel monthly,
      row.utilidadNeta
        = row.ingresos - row.costoVariable - row.gastosFijos + row.margenPizza := by
  intro row hrow
  obtain ⟨mes, res, hmes, hres, rfl⟩ := compute_monthly_mem hrow
  have hing : centMul (monthIngresos (efectuadoRows ev) (month_to_num mes)) := by
    apply centMul_sum
    intro x hx
    obtain ⟨r, hr, hpr⟩ := List.mem_filterMap.mp hx
    exact hp r (monthRows_subset hr) x hpr
  have hcv : centMul (monthCostoVar (efectuadoRows ev) (month_to_num mes)
      (get_assumption A "Costo variable por evento (MXN)" 0)) := by
    rw [monthCostoVar]
    apply centMul_add
    · apply centMul_sum
      intro x hx
      obtain ⟨r, hr, hpr⟩ := List.mem_filterMap.mp hx
      exact hc r (monthRows_subset hr) x hpr
    · exact centMul_natCast_mul _ hcd
  have hmar : centMul (monthMargen (efectuadoRows ev) (month_to_num mes)) := by
    apply centMul_sum
    intro x hx
    obtain ⟨r, hr, hpr⟩ := List.mem_filterMap.mp hx
    exact hm r (monthRows_subset hr) x hpr
  have hgas : centMul (if APPLY_FIXED_FROM_MONTH ≤ month_to_num mes
      then get_assumption A "Gastos fijos mensuales (MXN)" 0 else 0) := by
    split
    · exact hgf
    · exact centMul_zero
  simp only [roundRow, baseRow]
  rw [centMul.round2_eq hing, centMul.round2_eq hcv, centMul.round2_eq hgas,
    centMul.round2_eq hmar,
    centMul.round2_eq (centMul_add (centMul_sub (centMul_sub hing hcv) hgas) hmar)]

/-- Witness for C1 at a concrete input: one Completed October event with price
3500, variable cost 400 and pizza margin 250, with default variable cost 200
and fixed monthly cost 5000. -/
theorem monthly_net_profit_formula_witness :
    ((compute_monthly
        [("Costo variable por evento (MXN)", 200), ("Gastos fijos mensuales (MXN)", 5000)]
        [⟨some ⟨2025, 10, 4⟩, none, none, some 3500, some 250, some 400, "Efectuado"⟩]
        [] []).getD 9 mr0).utilidadNeta
      = ((compute_monthly
        [("Costo variable por evento (MXN)", 200), ("Gastos fijos mensuales (MXN)", 5000)]
        [⟨some ⟨2025, 10, 4⟩, none, none, some 3500, some 250, some 400, "Efectuado"⟩]
        [] []).getD 9 mr0).ingresos
      - ((compute_monthly
        [("Costo variable por evento (MXN)", 200), ("Gastos fijos mensuales (MXN)", 5000)]
        [⟨some ⟨2025, 10, 4⟩, none, none, some 3500, some 250, some 400, "Efectuado"⟩]
        [] []).getD 9 mr0).costoVariable
      - ((compute_monthly
        [("Costo variable por evento (MXN)", 200), ("Gastos fijos mensuales (MXN)", 5000)]
        [⟨some ⟨2025, 10, 4⟩, none, none, some 3500, some 250, some 400, "Efectuado"⟩]
        [] []).getD 9 mr0).gastosFijos
      + ((compute_monthly
        [("Costo variable por evento (MXN)", 200), ("Gastos fijos mensuales (MXN)", 5000)]
        [⟨some ⟨2025, 10, 4⟩, none, none, some 3500, some 250, some 400, "Efectuado"⟩]
        [] []).getD 9 mr0).margenPizza := by
  have hlen : 9 < (compute_monthly
      [("Costo variable por evento (MXN)", 200), ("Gastos fijos mensuales (MXN)", 5000)]
      [⟨some ⟨2025, 10, 4⟩, none, none, some 3500, some 250, some 400, "Efectuado"⟩]
      [] []).length := by
    rw [show (compute_monthly
      [("Costo variable por evento (MXN)", 200), ("Gastos fijos mensuales (MXN)", 5000)]
      [⟨some ⟨2025, 10, 4⟩, none, none, some 3500, some 250, some 400, "Efectuado"⟩]
      [] []).length = 12 from rfl]
    norm_num
  refine monthly_net_profit_formula
    [("Costo variable por evento (MXN)", 200), ("Gastos fijos mensuales (MXN)", 5000)]
    [⟨some ⟨2025, 10, 4⟩, none, none, some 3500, some 250, some 400, "Efectuado"⟩]
    [] [] ?_ ?_ ?_ ?_ ?_ _ (getD_mem_of_lt mr0 hlen)
  · intro r hr q hq
    simp only [List.mem_singleton] at hr
    subst hr
    have hq' : some (3500 : ℚ) = some q := hq
    injection hq' with h2
    exact ⟨350000, by rw [← h2]; norm_num⟩
  · intro r hr q hq
    simp only [List.mem_singleton] at hr
    subst hr
    have hq' : some (400 : ℚ) = some q := hq
    injection hq' with h2
    exact ⟨40000, by rw [← h2]; norm_num⟩
  · intro r hr q hq
    simp only [List.mem_singleton] at hr
    subst hr
    have hq' : some (250 : ℚ) = some q := hq
    injection hq' with h2
    exact ⟨25000, by rw [← h2]; norm_num⟩
  · exact ⟨20000, show (200 : ℚ) = ((20000 : ℤ) : ℚ) / 100 by norm_num⟩
  · exact ⟨500000, show (5000 : ℚ) = ((500000 : ℤ) : ℚ) / 100 by norm_num⟩

/-- C3.  The fixed-cost column equals the configured monthly fixed amount (a
currency amount) for every month whose `month_to_num` index is at least
`APPLY_FIXED_FROM_MONTH` (10, October), and zero for every earlier month. -/
theorem monthly_fixed_cost_threshold (A : List (String × ℚ)) (ev : List EventRow)
    (funnel monthly : List (String × ℚ))
    (hgf : centMul (get_assumption A "Gastos fijos mensuales (MXN)" 0)) :
    ∀ row ∈ compute_monthly A ev funnel monthly,
      row.gastosFijos
        = if APPLY_FIXED_FROM_MONTH ≤ month_to_num row.mes
          then get_assumption A "Gastos fijos mensuales (MXN)" 0 else 0 := by
  intro row hrow
  obtain ⟨mes, res, hmes, hres, rfl⟩ := compute_monthly_mem hrow
  simp only [roundRow, baseRow]
  split
  · exact centMul.round2_eq hgf
  · exact round2_zero

/-- Witness for C3 at the spec's example: fixed monthly cost 5000, threshold
October: September's fixed cost is 0 and October's is 5000. -/
theorem monthly_fixed_cost_threshold_witness :
    ((compute_monthly [("Gastos fijos mensuales (MXN)", 5000)] [] [] []).getD 8
        mr0).gastosFijos = 0 ∧
      ((compute_monthly [("Gastos fijos mensuales (MXN)", 5000)] [] [] []).getD 9
        mr0).gastosFijos = 5000 := by
  have hlen8 : 8 < (compute_monthly [("Gastos fijos mensuales (MXN)", 5000)] [] [] []).length := by
    rw [show (compute_monthly [("Gastos fijos mensuales (MXN)", 5000)] [] [] []).length = 12
      from rfl]
    norm_num
  have hlen9 : 9 < (compute_monthly [("Gastos fijos mensuales (MXN)", 5000)] [] [] []).length := by
    rw [show (compute_monthly [("Gastos fijos mensuales (MXN)", 5000)] [] [] []).length = 12
      from rfl]
    norm_num
  constructor
  · rw [monthly_fixed_cost_threshold [("Gastos fijos mensuales (MXN)", 5000)] [] [] []
      ⟨500000, show (5000 : ℚ) = ((500000 : ℤ) : ℚ) / 100 by norm_num⟩ _
      (getD_mem_of_lt mr0 hlen8)]
    rfl
  · rw [monthly_fixed_cost_threshold [("Gastos fijos mensuales (MXN)", 5000)] [] [] []
      ⟨500000, show (5000 : ℚ) = ((500000 : ℤ) : ℚ) / 100 by norm_num⟩ _
      (getD_mem_of_lt mr0 hlen9)]
    rfl

/-- C4.  Every month row's variable-cost total equals the sum of the explicit
variable costs of that month's Completed events plus the number of that
month's Completed events with no explicit variable cost times the configured
default variable cost (all of them currency amounts). -/
theorem monthly_variable_cost_backfill (A : List (String × ℚ)) (ev : List EventRow)
    (funnel monthly : List (String × ℚ))
    (hc : ∀ r ∈ ev, ∀ q, r.costoVar = some q → centMul q)
    (hcd : centMul (get_assumption A "Costo variable por evento (MXN)" 0)) :
    ∀ row ∈ compute_monthly A ev funnel monthly,
      row.costoVariable
        = ((monthRows (efectuadoRows ev) (month_to_num row.mes)).filterMap
              (fun r => r.costoVar)).sum
          + (((monthRows (efectuadoRows ev) (month_to_num row.mes)).filter
                (fun r => r.costoVar.isNone)).length : ℚ)
            * get_assumption A "Costo variable por evento (MXN)" 0 := by
  intro row hrow
  obtain ⟨mes, res, hmes, hres, rfl⟩ := compute_monthly_mem hrow
  have hsumC : centMul (((monthRows (efectuadoRows ev) (month_to_num mes)).filterMap
      (fun r => r.costoVar)).sum) := by
    apply centMul_sum
    intro x hx
    obtain ⟨r, hr, hpr⟩ := List.mem_filterMap.mp hx
    exact hc r (monthRows_subset hr) x hpr
  simp only [roundRow, baseRow, monthCostoVar]
  exact centMul.round2_eq (centMul_add hsumC (centMul_natCast_mul _ hcd))

/-- Witness for C4 at the spec's example: one Completed March event with price
1000 and no explicit variable cost, default variable cost 200: March has
variable-cost total 200, revenue 1000 and events count 1. -/
theorem monthly_variable_cost_backfill_witness :
    ((compute_monthly [("Costo variable por evento (MXN)", 200)]
        [⟨some ⟨2025, 3, 10⟩, none, none, some 1000, none, none, "Efectuado"⟩]
        [] []).getD 2 mr0).costoVariable = 200 ∧
      ((compute_monthly [("Costo variable por evento (MXN)", 200)]
        [⟨some ⟨2025, 3, 10⟩, none, none, some 1000, none, none, "Efectuado"⟩]
        [] []).getD 2 mr0).ingresos = 1000 ∧
      ((compute_monthly [("Costo variable por evento (MXN)", 200)]
        [⟨some ⟨2025, 3, 10⟩, none, none, some 1000, none, none, "Efectuado"⟩]
        [] []).getD 2 mr0).eventos = 1 := by
  have hlen : 2 < (compute_monthly [("Costo variable por evento (MXN)", 200)]
      [⟨some ⟨2025, 3, 10⟩, none, none, some 1000, none, none, "Efectuado"⟩]
      [] []).length := by
    rw [show (compute_monthly [("Costo variable por evento (MXN)", 200)]
      [⟨some ⟨2025, 3, 10⟩, none, none, some 1000, none, none, "Efectuado"⟩]
      [] []).length = 12 from rfl]
    norm_num
  refine ⟨?_, ?_, ?_⟩
  · rw [monthly_variable_cost_backfill [("Costo variable por evento (MXN)", 200)]
      [⟨some ⟨2025, 3, 10⟩, none, none, some 1000, none, none, "Efectuado"⟩] [] []
      (by
        intro r hr q hq
        simp only [List.mem_singleton] at hr
        subst hr
        exact Option.noConfusion hq)
      ⟨20000, show (200 : ℚ) = ((20000 : ℤ) : ℚ) / 100 by norm_num⟩ _
      (getD_mem_of_lt mr0 hlen)]
    rw [show ((compute_monthly [("Costo variable por evento (MXN)", 200)]
        [⟨some ⟨2025, 3, 10⟩, none, none, some 1000, none, none, "Efectuado"⟩]
        [] []).getD 2 mr0).mes = "Mar" from rfl]
    rw [show (monthRows (efectuadoRows
        [⟨some ⟨2025, 3, 10⟩, none, none, some 1000, none, none, "Efectuado"⟩])
        (month_to_num "Mar")).filterMap (fun r => r.costoVar) = [] from rfl]
    rw [show ((monthRows (efectuadoRows
        [⟨some ⟨2025, 3, 10⟩, none, none, some 1000, none, none, "Efectuado"⟩])
        (month_to_num "Mar")).filter (fun r => r.costoVar.isNone)).length = 1 from rfl]
    rw [show get_assumption [("Costo variable por evento (MXN)", 200)]
        "Costo variable por evento (MXN)" 0 = 200 from rfl]
    norm_num
  · rw [show ((compute_monthly [("Costo variable por evento (MXN)", 200)]
        [⟨some ⟨2025, 3, 10⟩, none, none, some 1000, none, none, "Efectuado"⟩]
        [] []).getD 2 mr0).ingresos = round2 ((1000 : ℚ) + 0) from rfl]
    norm_num [round2, roundHalfEven]
  · rw [show ((compute_monthly [("Costo variable por evento (MXN)", 200)]
        [⟨some ⟨2025, 3, 10⟩, none, none, some 1000, none, none, "Efectuado"⟩]
        [] []).getD 2 mr0).eventos = ((1 : ℕ) : ℚ) from rfl]
    norm_num

/-! ## Lemmas: row projections (definitional) -/

theorem roundRow_mes (r : MonthRow) : (roundRow r).mes = r.mes := rfl

theorem roundRow_eventos (r : MonthRow) : (roundRow r).eventos = r.eventos := rfl

theorem roundRow_reservasMeta (r : MonthRow) :
    (roundRow r).reservasMeta = r.reservasMeta.map round2 := rfl

theorem baseRow_mes (cvD gfm : ℚ) (ev : List EventRow)
    (monthly : List (String × ℚ)) (mes : String) (res : Option ℚ) :
    (baseRow cvD gfm ev monthly mes res).mes = mes := rfl

theorem baseRow_eventos (cvD gfm : ℚ) (ev : List EventRow)
    (monthly : List (String × ℚ)) (mes : String) (res : Option ℚ) :
    (baseRow cvD gfm ev monthly mes res).eventos
      = monthEventos ev (month_to_num mes) := rfl

theorem baseRow_reservasMeta (cvD gfm : ℚ) (ev : List EventRow)
    (monthly : List (String × ℚ)) (mes : String) (res : Option ℚ) :
    (baseRow cvD gfm ev monthly mes res).reservasMeta = res := rfl

theorem roundRow_precioPromedio (r : MonthRow) :
    (roundRow r).precioPromedio = round2 r.precioPromedio := rfl

theorem roundRow_ingresos (r : MonthRow) :
    (roundRow r).ingresos = round2 r.ingresos := rfl

theorem roundRow_costoVariable (r : MonthRow) :
    (roundRow r).costoVariable = round2 r.costoVariable := rfl

theorem roundRow_gastosFijos (r : MonthRow) :
    (roundRow r).gastosFijos = round2 r.gastosFijos := rfl

theorem roundRow_margenPizza (r : MonthRow) :
    (roundRow r).margenPizza = round2 r.margenPizza := rfl

theorem roundRow_utilidadNeta (r : MonthRow) :
    (roundRow r).utilidadNeta = round2 r.utilidadNeta := rfl

theorem roundRow_arpuReal (r : MonthRow) :
    (roundRow r).arpuReal = round2 r.arpuReal := rfl

theorem roundRow_resenasNuevas (r : MonthRow) :
    (roundRow r).resenasNuevas = round2 r.resenasNuevas := rfl

theorem baseRow_precioPromedio (cvD gfm : ℚ) (ev : List EventRow)
    (monthly : List (String × ℚ)) (mes : String) (res : Option ℚ) :
    (baseRow cvD gfm ev monthly mes res).precioPromedio
      = if 0 < monthEventos ev (month_to_num mes)
        then monthIngresos ev (month_to_num mes) / monthEventos ev (month_to_num mes)
        else 0 := rfl

theorem baseRow_ingresos (cvD gfm : ℚ) (ev : List EventRow)
    (monthly : List (String × ℚ)) (mes : String) (res : Option ℚ) :
    (baseRow cvD gfm ev monthly mes res).ingresos
      = monthIngresos ev (month_to_num mes) := rfl

theorem baseRow_costoVariable (cvD gfm : ℚ) (ev : List EventRow)
    (monthly : List (String × ℚ)) (mes : String) (res : Option ℚ) :
    (baseRow cvD gfm ev monthly mes res).costoVariable
      = monthCostoVar ev (month_to_num mes) cvD := rfl

theorem baseRow_gastosFijos (cvD gfm : ℚ) (ev : List EventRow)
    (monthly : List (String × ℚ)) (mes : String) (res : Option ℚ) :
    (baseRow cvD gfm ev monthly mes res).gastosFijos
      = if APPLY_FIXED_FROM_MONTH ≤ month_to_num mes then gfm else 0 := rfl

theorem baseRow_margenPizza (cvD gfm : ℚ) (ev : List EventRow)
    (monthly : List (String × ℚ)) (mes : String) (res : Option ℚ) :
    (baseRow cvD gfm ev monthly mes res).margenPizza
      = monthMargen ev (month_to_num mes) := rfl

theorem baseRow_utilidadNeta (cvD gfm : ℚ) (ev : List EventRow)
    (monthly : List (String × ℚ)) (mes : String) (res : Option ℚ) :
    (baseRow cvD gfm ev monthly mes res).utilidadNeta
      = monthIngresos ev (month_to_num mes) - monthCostoVar ev (month_to_num mes) cvD
        - (if APPLY_FIXED_FROM_MONTH ≤ month_to_num mes then gfm else 0)
        + monthMargen ev (month_to_num mes) := rfl

theorem baseRow_arpuReal (cvD gfm : ℚ) (ev : List EventRow)
    (monthly : List (String × ℚ)) (mes : String) (res : Option ℚ) :
    (baseRow cvD gfm ev monthly mes res).arpuReal
      = if 0 < monthEventos ev (month_to_num mes)
        then monthIngresos ev (month_to_num mes) / monthEventos ev (month_to_num mes)
        else 0 := rfl

theorem baseRow_resenasNuevas (cvD gfm : ℚ) (ev : List EventRow)
    (monthly : List (String × ℚ)) (mes : String) (res : Option ℚ) :
    (baseRow cvD gfm ev monthly mes res).resenasNuevas
      = (monthly.lookup mes).getD 0 := rfl

/-! ## Lemmas: association-list lookups against the Funnel merge -/

theorem lookup_none_of_not_mem_keys (l : List (String × ℚ)) (mes : String)
    (h : mes ∉ l.map Prod.fst) : l.lookup mes = none := by
  induction l with
  | nil => rfl
  | cons p t ih =>
    obtain ⟨k, v⟩ := p
    simp only [List.map_cons, List.mem_cons, not_or] at h
    have hne : (mes == k) = false := by simp [h.1]
    simp [List.lookup, hne, ih h.2]

theorem filter_key_nil_iff (l : List (String × ℚ)) (mes : String) :
    l.filter (fun p => p.1 == mes) = [] ↔ l.lookup mes = none := by
  induction l with
  | nil => simp
  | cons p t ih =>
    obtain ⟨k, v⟩ := p
    by_cases hk : k = mes
    · subst hk
      simp [List.filter_cons, List.lookup]
    · have h1 : (k == mes) = false := by simp [hk]
      have h2 : (mes == k) = false := by simp [Ne.symm hk]
      simp [List.filter_cons, List.lookup, h1, h2, ih]

theorem filter_key_map_of_lookup (l : List (String × ℚ)) (mes : String) (c : ℚ)
    (hnd : (l.map Prod.fst).Nodup) (h : l.lookup mes = some c) :
    (l.filter (fun p => p.1 == mes)).map (fun p => p.2) = [c] := by
  induction l with
  | nil => simp [List.lookup] at h
  | cons p t ih =>
    obtain ⟨k, v⟩ := p
    simp only [List.map_cons, List.nodup_cons] at hnd
    by_cases hk : k = mes
    · subst hk
      have hself : (k == k) = true := by simp
      rw [List.lookup, hself] at h
      have hvc : v = c := by simpa using h
      subst hvc
      have ht : t.filter (fun p => p.1 == k) = [] :=
        (filter_key_nil_iff t k).mpr (lookup_none_of_not_mem_keys t k hnd.1)
      simp [List.filter_cons, ht]
    · have h1 : (k == mes) = false := by simp [hk]
      have h2 : (mes == k) = false := by simp [Ne.symm hk]
      rw [List.lookup, h2] at h
      simp [List.filter_cons, h1]
      exact ih hnd.2 h

theorem filter_key_len_le_one (l : List (String × ℚ)) (mes : String)
    (hnd : (l.map Prod.fst).Nodup) :
    (l.filter (fun p => p.1 == mes)).length ≤ 1 := by
  induction l with
  | nil => simp
  | cons p t ih =>
    obtain ⟨k, v⟩ := p
    simp only [List.map_cons, List.nodup_cons] at hnd
    by_cases hk : k = mes
    · subst hk
      have ht : t.filter (fun p => p.1 == k) = [] :=
        (filter_key_nil_iff t k).mpr (lookup_none_of_not_mem_keys t k hnd.1)
      simp [List.filter_cons, ht]
    · have h1 : (k == mes) = false := by simp [hk]
      simpa [List.filter_cons, h1] using ih hnd.2

theorem funnelCells_sing (funnel : List (String × ℚ)) (mes : String) (ev' : ℚ)
    (hnd : (funnel.map Prod.fst).Nodup) :
    ∃ c, funnelCells funnel mes ev' = [c] := by
  rw [funnelCells]
  split
  · exact ⟨some 0, rfl⟩
  · cases hf : (funnel.filter (fun p => p.1 == mes)).map (fun p => p.2) with
    | nil => exact ⟨_, rfl⟩
    | cons a t =>
      have hlen : ((funnel.filter (fun p => p.1 == mes)).map (fun p => p.2)).length ≤ 1 := by
        rw [List.length_map]
        exact filter_key_len_le_one funnel mes hnd
      rw [hf] at hlen
      simp only [List.length_cons] at hlen
      have ht : t = [] := List.length_eq_zero.mp (by omega)
      subst ht
      exact ⟨_, rfl⟩

theorem flatMap_sing_map_proj {α β : Type} (L : List α) (f : α → List β)
    (g : β → α) (h : ∀ a ∈ L, ∃ b, f a = [b] ∧ g b = a) :
    (L.flatMap f).map g = L := by
  induction L with
  | nil => rfl
  | cons a t ih =>
    rw [List.flatMap_cons, List.map_append]
    obtain ⟨b, hb, hg⟩ := h a (by simp)
    rw [hb, ih (fun x hx => h x (by simp [hx]))]
    simp [hg]

/-- C5, corrected.  The booking-ratio cell of a month row: when the Funnel
sheet is empty the column is the constant 0; when the Funnel sheet is
nonempty, a month with a Funnel row gets confirmed ÷ events × 100 rounded to
2 decimals if the month has Completed events, and 0 otherwise; a month
WITHOUT a Funnel row gets a null (NaN) cell — not 0 — whenever it has
Completed events (the `np.where` at line 295 propagates the unmatched merge's
NaN), and 0 only when it has none.  Funnel months are assumed unique (spec
data model: one Funnel row per month; the left merge duplicates month rows
otherwise). -/
theorem monthly_booking_ratio (A : List (String × ℚ)) (ev : List EventRow)
    (funnel monthly : List (String × ℚ)) (hnd : (funnel.map Prod.fst).Nodup) :
    ∀ row ∈ compute_monthly A ev funnel monthly,
      (funnel = [] → row.reservasMeta = some 0) ∧
      (funnel ≠ [] → funnel.lookup row.mes = none →
        row.reservasMeta = if 0 < row.eventos then none else some 0) ∧
      (∀ conf, funnel.lookup row.mes = some conf →
        row.reservasMeta
          = some (if 0 < row.eventos then round2 (conf / row.eventos * 100)
                  else 0)) := by
  intro row hrow
  obtain ⟨mes, res, hmes, hres, rfl⟩ := compute_monthly_mem hrow
  rw [roundRow_mes, baseRow_mes, roundRow_eventos, baseRow_eventos,
    roundRow_reservasMeta, baseRow_reservasMeta]
  refine ⟨?_, ?_, ?_⟩
  · intro hnil
    subst hnil
    rw [funnelCells] at hres
    simp only [List.isEmpty_nil, if_true, List.mem_singleton] at hres
    subst hres
    simp [round2_zero]
  · intro hne hlook
    have hie : funnel.isEmpty = false := by
      cases funnel with
      | nil => exact absurd rfl hne
      | cons a t => rfl
    have hfil : funnel.filter (fun p => p.1 == mes) = [] :=
      (filter_key_nil_iff funnel mes).mpr hlook
    rw [funnelCells, hie] at hres
    rw [hfil] at hres
    simp only [Bool.false_eq_true, if_false, List.map_nil, List.mem_singleton] at hres
    subst hres
    by_cases hc : 0 < monthEventos (efectuadoRows ev) (month_to_num mes)
    · simp [hc]
    · simp [hc, round2_zero]
  · intro conf hlook
    have hne : funnel ≠ [] := by
      intro hnil
      subst hnil
      simp [List.lookup] at hlook
    have hie : funnel.isEmpty = false := by
      cases funnel with
      | nil => exact absurd rfl hne
      | cons a t => rfl
    have hfil := filter_key_map_of_lookup funnel mes conf hnd hlook
    rw [funnelCells, hie] at hres
    rw [hfil] at hres
    simp only [Bool.false_eq_true, if_false, List.map_cons, List.map_nil,
      List.mem_singleton] at hres
    subst hres
    rw [Option.map_some']
    by_cases hc : 0 < monthEventos (efectuadoRows ev) (month_to_num mes)
    · simp [hc]
    · simp [hc, round2_zero]

/-- Counterexample for C5 as stated: one Completed January event and a Funnel
sheet that has a February row but no January row.  January has events and no
Funnel data, yet its booking-ratio cell is null (NaN), not 0. -/
theorem monthly_booking_ratio_cex :
    ([("Feb", (5 : ℚ))].lookup "Ene" = none) ∧
    ((compute_monthly []
        [⟨some ⟨2025, 1, 15⟩, none, none, some 100, none, some 0, "Efectuado"⟩]
        [("Feb", 5)] []).getD 0 mr0).mes = "Ene" ∧
    (0 : ℚ) < ((compute_monthly []
        [⟨some ⟨2025, 1, 15⟩, none, none, some 100, none, some 0, "Efectuado"⟩]
        [("Feb", 5)] []).getD 0 mr0).eventos ∧
    ((compute_monthly []
        [⟨some ⟨2025, 1, 15⟩, none, none, some 100, none, some 0, "Efectuado"⟩]
        [("Feb", 5)] []).getD 0 mr0).reservasMeta = none := by
  refine ⟨rfl, rfl, ?_, rfl⟩
  rw [show ((compute_monthly []
      [⟨some ⟨2025, 1, 15⟩, none, none, some 100, none, some 0, "Efectuado"⟩]
      [("Feb", 5)] []).getD 0 mr0).eventos = ((1 : ℕ) : ℚ) from rfl]
  norm_num

/-- Witness for the corrected C5 at a concrete input: three Completed January
events and one confirmed January reservation give a booking ratio of
100/3 rounded to 33.33. -/
theorem monthly_booking_ratio_witness :
    ((compute_monthly []
        [⟨some ⟨2025, 1, 15⟩, none, none, some 100, none, some 0, "Efectuado"⟩,
         ⟨some ⟨2025, 1, 16⟩, none, none, some 100, none, some 0, "Efectuado"⟩,
         ⟨some ⟨2025, 1, 17⟩, none, none, some 100, none, some 0, "Efectuado"⟩]
        [("Ene", 1)] []).getD 0 mr0).reservasMeta = some (3333 / 100) := by
  have hlen : 0 < (compute_monthly []
      [⟨some ⟨2025, 1, 15⟩, none, none, some 100, none, some 0, "Efectuado"⟩,
       ⟨some ⟨2025, 1, 16⟩, none, none, some 100, none, some 0, "Efectuado"⟩,
       ⟨some ⟨2025, 1, 17⟩, none, none, some 100, none, some 0, "Efectuado"⟩]
      [("Ene", 1)] []).length := by
    rw [show (compute_monthly []
      [⟨some ⟨2025, 1, 15⟩, none, none, some 100, none, some 0, "Efectuado"⟩,
       ⟨some ⟨2025, 1, 16⟩, none, none, some 100, none, some 0, "Efectuado"⟩,
       ⟨some ⟨2025, 1, 17⟩, none, none, some 100, none, some 0, "Efectuado"⟩]
      [("Ene", 1)] []).length = 12 from rfl]
    norm_num
  have h := (monthly_booking_ratio []
      [⟨some ⟨2025, 1, 15⟩, none, none, some 100, none, some 0, "Efectuado"⟩,
       ⟨some ⟨2025, 1, 16⟩, none, none, some 100, none, some 0, "Efectuado"⟩,
       ⟨some ⟨2025, 1, 17⟩, none, none, some 100, none, some 0, "Efectuado"⟩]
      [("Ene", 1)] [] (by simp) _ (getD_mem_of_lt mr0 hlen)).2.2 1 (by rfl)
  rw [h]
  rw [show ((compute_monthly []
      [⟨some ⟨2025, 1, 15⟩, none, none, some 100, none, some 0, "Efectuado"⟩,
       ⟨some ⟨2025, 1, 16⟩, none, none, some 100, none, some 0, "Efectuado"⟩,
       ⟨some ⟨2025, 1, 17⟩, none, none, some 100, none, some 0, "Efectuado"⟩]
      [("Ene", 1)] []).getD 0 mr0).eventos = ((3 : ℕ) : ℚ) from rfl]
  rw [if_pos (by norm_num)]
  norm_num [round2, roundHalfEven]

/-- C6, corrected.  On an empty Event Log the rollup still yields 12 rows in
canonical month order and every Event-Log-derived column is 0, but only under
the data-model side conditions the claim leaves implicit: the configured
fixed monthly cost must be 0 (months ≥ October get it regardless of events,
line 285), the prior `Monthly` sheet must contribute no review counts (they
are carried over regardless of events, lines 300-305), and the Funnel sheet
must have unique month keys (a duplicated month duplicates its row through
the left merge, yielding more than 12 rows). -/
theorem monthly_empty_log_all_zero (A funnel monthly : List (String × ℚ))
    (hgf : get_assumption A "Gastos fijos mensuales (MXN)" 0 = 0)
    (hmon : monthly = [])
    (hnd : (funnel.map Prod.fst).Nodup) :
    (compute_monthly A [] funnel monthly).map (fun r => r.mes) = SPANISH_MONTHS ∧
    ∀ row ∈ compute_monthly A [] funnel monthly,
      row.eventos = 0 ∧ row.precioPromedio = 0 ∧ row.ingresos = 0 ∧
      row.costoVariable = 0 ∧ row.gastosFijos = 0 ∧ row.margenPizza = 0 ∧
      row.utilidadNeta = 0 ∧ row.arpuReal = 0 ∧ row.reservasMeta = some 0 ∧
      row.resenasNuevas = 0 := by
  subst hmon
  constructor
  · simp only [compute_monthly]
    rw [List.map_map]
    apply flatMap_sing_map_proj
    intro mes hmes
    obtain ⟨c, hc⟩ := funnelCells_sing funnel mes
      (monthEventos (efectuadoRows []) (month_to_num mes)) hnd
    refine ⟨baseRow (get_assumption A "Costo variable por evento (MXN)" 0)
      (get_assumption A "Gastos fijos mensuales (MXN)" 0) (efectuadoRows []) [] mes c,
      ?_, rfl⟩
    rw [hc, List.map_cons, List.map_nil]
  · intro row hrow
    obtain ⟨mes, res, hmes, hres, rfl⟩ := compute_monthly_mem hrow
    have hres0 : res = some 0 := by
      have hev : monthEventos (efectuadoRows ([] : List EventRow))
          (month_to_num mes) = 0 := rfl
      rw [hev, funnelCells] at hres
      split at hres
      · simpa using hres
      · rcases hm : (funnel.filter (fun p => p.1 == mes)).map (fun p => p.2)
          with _ | ⟨a, t⟩
        · rw [hm] at hres
          simp only [List.mem_singleton] at hres
          rw [if_neg (lt_irrefl (0 : ℚ))] at hres
          exact hres
        · rw [hm] at hres
          simp only [List.map_cons, List.mem_cons, List.mem_map] at hres
          rcases hres with hres | ⟨x, hx, hxx⟩
          · rw [if_neg (lt_irrefl (0 : ℚ))] at hres
            exact hres
          · rw [if_neg (lt_irrefl (0 : ℚ))] at hxx
            exact hxx.symm
    subst hres0
    have h0 : monthRows (efectuadoRows ([] : List EventRow)) (month_to_num mes)
        = [] := rfl
    refine ⟨?_, ?_, ?_, ?_, ?_, ?_, ?_, ?_, ?_, ?_⟩ <;>
      simp [roundRow_eventos, roundRow_precioPromedio, roundRow_ingresos,
        roundRow_costoVariable, roundRow_gastosFijos, roundRow_margenPizza,
        roundRow_utilidadNeta, roundRow_arpuReal, roundRow_reservasMeta,
        roundRow_resenasNuevas, baseRow_eventos, baseRow_precioPromedio,
        baseRow_ingresos, baseRow_costoVariable, baseRow_gastosFijos,
        baseRow_margenPizza, baseRow_utilidadNeta, baseRow_arpuReal,
        baseRow_reservasMeta, baseRow_resenasNuevas, monthEventos,
        monthIngresos, monthCostoVar, monthMargen, h0, hgf, round2_zero,
        ite_self, lt_irrefl]

/-- Counterexample for C6 as stated: with a configured fixed monthly cost of
5000 an empty Event Log still gets 5000 in October's fixed-cost column, and
with a Funnel sheet that lists January twice the rollup has 13 rows, not 12. -/
theorem monthly_empty_log_all_zero_cex :
    (compute_monthly [("Gastos fijos mensuales (MXN)", 5000)] []
        [("Ene", 1), ("Ene", 2)] []).length ≠ 12 ∧
    ((compute_monthly [("Gastos fijos mensuales (MXN)", 5000)] [] [] []).getD 9
        mr0).gastosFijos ≠ 0 := by
  constructor
  · rw [show (compute_monthly [("Gastos fijos mensuales (MXN)", 5000)] []
      [("Ene", 1), ("Ene", 2)] []).length = 13 from rfl]
    norm_num
  · rw [show ((compute_monthly [("Gastos fijos mensuales (MXN)", 5000)] [] []
      []).getD 9 mr0).gastosFijos = round2 (5000 : ℚ) from rfl]
    rw [centMul.round2_eq ⟨500000, by norm_num⟩]
    norm_num

/-- Witness for the corrected C6 at a concrete input: no assumptions, no prior
Monthly sheet, a one-month Funnel sheet, empty Event Log. -/
theorem monthly_empty_log_all_zero_witness :
    (compute_monthly [] [] [("Ene", 1)] []).map (fun r => r.mes) = SPANISH_MONTHS ∧
    ((compute_monthly [] [] [("Ene", 1)] []).getD 0 mr0).utilidadNeta = 0 := by
  have h := monthly_empty_log_all_zero [] [("Ene", 1)] [] rfl rfl (by simp)
  refine ⟨h.1, ?_⟩
  have hlen : 0 < (compute_monthly [] [] [("Ene", 1)] []).length := by
    rw [show (compute_monthly [] [] [("Ene", 1)] []).length = 12 from rfl]
    norm_num
  exact (h.2 _ (getD_mem_of_lt mr0 hlen)).2.2.2.2.2.2.1

/-! ## Lemmas: the id pipeline of the Event Log Normalizer -/

theorem pytrunc_intCast (n : ℤ) : pytrunc ((n : ℤ) : ℚ) = n := by
  unfold pytrunc
  split
  · exact Int.floor_intCast n
  · exact Int.ceil_intCast n

theorem isIntQ.cast_pytrunc {q : ℚ} (h : isIntQ q) : ((pytrunc q : ℤ) : ℚ) = q := by
  obtain ⟨n, rfl⟩ := h
  rw [pytrunc_intCast]

theorem le_foldl_max (a : ℚ) (l : List ℚ) : a ≤ l.foldl max a := by
  induction l generalizing a with
  | nil => exact le_refl a
  | cons b t ih => exact le_trans (le_max_left a b) (ih (max a b))

theorem mem_le_foldl_max (l : List ℚ) (x : ℚ) (hx : x ∈ l) :
    ∀ a, x ≤ l.foldl max a := by
  induction l with
  | nil => cases hx
  | cons b t ih =>
    intro a
    rw [List.foldl_cons]
    rcases List.mem_cons.mp hx with rfl | hx'
    · exact le_trans (le_max_right a x) (le_foldl_max _ t)
    · exact ih hx' (max a b)

theorem le_listMax {l : List ℚ} {x : ℚ} (hx : x ∈ l) : x ≤ listMax l := by
  cases l with
  | nil => cases hx
  | cons y t =>
    rcases List.mem_cons.mp hx with rfl | hx'
    · exact le_foldl_max x t
    · exact mem_le_foldl_max t x hx' y

theorem foldl_max_mem (l : List ℚ) : ∀ a, l.foldl max a ∈ a :: l := by
  induction l with
  | nil => intro a; simp
  | cons b t ih =>
    intro a
    rw [List.foldl_cons]
    rcases List.mem_cons.mp (ih (max a b)) with h | h
    · rw [h]
      rcases max_choice a b with hm | hm <;> rw [hm]
      · exact List.mem_cons_self _ _
      · exact List.mem_cons_of_mem _ (List.mem_cons_self _ _)
    · exact List.mem_cons_of_mem _ (List.mem_cons_of_mem _ h)

theorem listMax_mem {l : List ℚ} (h : l ≠ []) : listMax l ∈ l := by
  cases l with
  | nil => exact absurd rfl h
  | cons y t => exact foldl_max_mem t y

theorem fillNone_length (xs : List (Option ℚ)) (m : ℤ) :
    (fillNone xs m).length = xs.length := by
  induction xs generalizing m with
  | nil => rfl
  | cons x t ih => cases x <;> simp [fillNone, ih]

theorem fillNone_getD_some (xs : List (Option ℚ)) (m : ℤ) (i : ℕ) (q : ℚ)
    (h : xs.getD i none = some q) : (fillNone xs m).getD i 0 = q := by
  induction xs generalizing m i with
  | nil => simp [List.getD] at h
  | cons x t ih =>
    cases i with
    | zero =>
      cases x with
      | none => simp [List.getD_cons_zero] at h
      | some p =>
        have hp : p = q := by simpa [List.getD_cons_zero] using h
        subst hp
        rfl
    | succ j =>
      cases x with
      | none =>
        have h' : t.getD j none = some q := by simpa [List.getD_cons_succ] using h
        simpa [fillNone, List.getD_cons_succ] using ih (m + 1) j h'
      | some p =>
        have h' : t.getD j none = some q := by simpa [List.getD_cons_succ] using h
        simpa [fillNone, List.getD_cons_succ] using ih m j h'

theorem fillNone_getD_none (xs : List (Option ℚ)) (m : ℤ) (i : ℕ)
    (hi : i < xs.length) (h : xs.getD i none = none) :
    (fillNone xs m).getD i 0
      = ((m + 1 + ((xs.take i).countP (fun x => x.isNone) : ℤ) : ℤ) : ℚ) := by
  induction xs generalizing m i with
  | nil => simp at hi
  | cons x t ih =>
    cases i with
    | zero =>
      cases x with
      | none => simp [fillNone, List.getD_cons_zero]
      | some p => simp [List.getD_cons_zero] at h
    | succ j =>
      have hi' : j < t.length := by simpa using hi
      have h' : t.getD j none = none := by simpa [List.getD_cons_succ] using h
      cases x with
      | none =>
        rw [show fillNone (none :: t) m = ((m + 1 : ℤ) : ℚ) :: fillNone t (m + 1)
          from rfl]
        rw [List.getD_cons_succ, ih (m + 1) j hi' h']
        congr 1
        rw [show (none :: t).take (j + 1) = none :: t.take j from rfl]
        rw [List.countP_cons]
        simp
        try omega
      | some p =>
        rw [show fillNone (some p :: t) m = p :: fillNone t m from rfl]
        rw [List.getD_cons_succ, ih m j hi' h']
        rw [show (some p :: t).take (j + 1) = some p :: t.take j from rfl,
          List.countP_cons]
        simp

theorem mem_fillNone {xs : List (Option ℚ)} {m : ℤ} {v : ℚ}
    (hv : v ∈ fillNone xs m) :
    some v ∈ xs ∨ ∃ k : ℤ, v = ((k : ℤ) : ℚ) ∧ m < k
      ∧ k ≤ m + (xs.countP (fun x => x.isNone) : ℤ) := by
  induction xs generalizing m with
  | nil => simp [fillNone] at hv
  | cons x t ih =>
    cases x with
    | none =>
      rw [show fillNone (none :: t) m = ((m + 1 : ℤ) : ℚ) :: fillNone t (m + 1)
        from rfl] at hv
      rcases List.mem_cons.mp hv with rfl | hv'
      · refine Or.inr ⟨m + 1, rfl, by omega, ?_⟩
        rw [List.countP_cons]
        simp
        try omega
      · rcases ih hv' with h | ⟨k, rfl, hk1, hk2⟩
        · exact Or.inl (List.mem_cons_of_mem _ h)
        · refine Or.inr ⟨k, rfl, by omega, ?_⟩
          rw [List.countP_cons]
          simp
          try omega
    | some p =>
      rw [show fillNone (some p :: t) m = p :: fillNone t m from rfl] at hv
      rcases List.mem_cons.mp hv with rfl | hv'
      · exact Or.inl (List.mem_cons_self _ _)
      · rcases ih hv' with h | ⟨k, rfl, hk1, hk2⟩
        · exact Or.inl (List.mem_cons_of_mem _ h)
        · refine Or.inr ⟨k, rfl, hk1, ?_⟩
          rw [List.countP_cons]
          simp
          try omega

theorem reassignDups_length (l seen : List ℚ) (m : ℤ) :
    (reassignDups l seen m).length = l.length := by
  induction l generalizing seen m with
  | nil => rfl
  | cons q t ih =>
    by_cases hq : q ∈ seen
    · rw [reassignDups, if_pos hq]
      simp [ih]
    · rw [reassignDups, if_neg hq]
      simp [ih]

theorem mem_reassignDups {l seen : List ℚ} {m : ℤ} {v : ℚ}
    (hv : v ∈ reassignDups l seen m) :
    (v ∈ l ∧ v ∉ seen) ∨ ∃ k : ℤ, v = ((k : ℤ) : ℚ) ∧ m < k := by
  induction l generalizing seen m with
  | nil => simp [reassignDups] at hv
  | cons q t ih =>
    by_cases hq : q ∈ seen
    · rw [reassignDups, if_pos hq] at hv
      rcases List.mem_cons.mp hv with rfl | hv'
      · exact Or.inr ⟨m + 1, rfl, by omega⟩
      · rcases ih hv' with ⟨h1, h2⟩ | ⟨k, rfl, hk⟩
        · exact Or.inl ⟨List.mem_cons_of_mem _ h1,
            fun hs => h2 (List.mem_cons_of_mem q hs)⟩
        · exact Or.inr ⟨k, rfl, by omega⟩
    · rw [reassignDups, if_neg hq] at hv
      rcases List.mem_cons.mp hv with rfl | hv'
      · exact Or.inl ⟨List.mem_cons_self _ _, hq⟩
      · rcases ih hv' with ⟨h1, h2⟩ | ⟨k, rfl, hk⟩
        · exact Or.inl ⟨List.mem_cons_of_mem _ h1,
            fun hs => h2 (List.mem_cons_of_mem q hs)⟩
        · exact Or.inr ⟨k, rfl, hk⟩

theorem reassignDups_nodup (l : List ℚ) (seen : List ℚ) (m : ℤ)
    (hle : ∀ v ∈ l, v ≤ ((m : ℤ) : ℚ)) : (reassignDups l seen m).Nodup := by
  induction l generalizing seen m with
  | nil => exact List.nodup_nil
  | cons q t ih =>
    have hletail : ∀ v ∈ t, v ≤ ((m : ℤ) : ℚ) :=
      fun v hv => hle v (List.mem_cons_of_mem _ hv)
    by_cases hq : q ∈ seen
    · rw [reassignDups, if_pos hq]
      refine List.nodup_cons.mpr ⟨?_, ih (q :: seen) (m + 1)
        (fun v hv => le_trans (hletail v hv) (by push_cast; linarith))⟩
      intro hc
      rcases mem_reassignDups hc with ⟨h1, -⟩ | ⟨k, hk, hk2⟩
      · have hb := hletail _ h1
        have : ((m : ℤ) : ℚ) < ((m + 1 : ℤ) : ℚ) := by push_cast; linarith
        exact absurd hb (not_le.mpr this)
      · have : (m + 1 : ℤ) = k := by exact_mod_cast hk
        omega
    · rw [reassignDups, if_neg hq]
      refine List.nodup_cons.mpr ⟨?_, ih (q :: seen) m hletail⟩
      intro hc
      rcases mem_reassignDups hc with ⟨-, h2⟩ | ⟨k, hk, hk2⟩
      · exact h2 (List.mem_cons_self q seen)
      · have hb := hle q (List.mem_cons_self _ _)
        rw [hk] at hb
        have : k ≤ m := by exact_mod_cast hb
        omega

theorem reassignDups_getD_keep (l : List ℚ) (seen : List ℚ) (m : ℤ) (i : ℕ)
    (hi : i < l.length) (hseen : l.getD i 0 ∉ seen)
    (hfirst : ∀ j, j < i → l.getD j 0 ≠ l.getD i 0) :
    (reassignDups l seen m).getD i 0 = l.getD i 0 := by
  induction l generalizing seen m i with
  | nil => simp at hi
  | cons q t ih =>
    cases i with
    | zero =>
      simp only [List.getD_cons_zero] at hseen ⊢
      rw [reassignDups, if_neg hseen, List.getD_cons_zero]
    | succ j =>
      simp only [List.getD_cons_succ] at hseen ⊢
      have hi' : j < t.length := by simpa using hi
      have hq : t.getD j 0 ≠ q := by
        have h0 := hfirst 0 (Nat.succ_pos j)
        simp only [List.getD_cons_zero, List.getD_cons_succ] at h0
        exact fun hc => h0 hc.symm
      have hfirst' : ∀ j2, j2 < j → t.getD j2 0 ≠ t.getD j 0 := by
        intro j2 hj2
        have := hfirst (j2 + 1) (by omega)
        simpa [List.getD_cons_succ] using this
      have hseen' : t.getD j 0 ∉ q :: seen := by
        intro hc
        rcases List.mem_cons.mp hc with hc1 | hc2
        · exact hq hc1
        · exact hseen hc2
      by_cases hqs : q ∈ seen
      · rw [reassignDups, if_pos hqs, List.getD_cons_succ]
        exact ih (q :: seen) (m + 1) j hi' hseen' hfirst'
      · rw [reassignDups, if_neg hqs, List.getD_cons_succ]
        exact ih (q :: seen) m j hi' hseen' hfirst'

theorem reassignDups_getD_replaced (l seen : List ℚ) (m : ℤ) (i : ℕ)
    (hi : i < l.length)
    (hdup : l.getD i 0 ∈ seen ∨ ∃ j, j < i ∧ l.getD j 0 = l.getD i 0) :
    ∃ k : ℤ, (reassignDups l seen m).getD i 0 = ((k : ℤ) : ℚ) ∧ m < k := by
  induction l generalizing seen m i with
  | nil => simp at hi
  | cons q t ih =>
    cases i with
    | zero =>
      have hqs : q ∈ seen := by
        rcases hdup with h | ⟨j, hj, -⟩
        · simpa [List.getD_cons_zero] using h
        · omega
      rw [reassignDups, if_pos hqs]
      exact ⟨m + 1, by rw [List.getD_cons_zero], by omega⟩
    | succ j =>
      have hi' : j < t.length := by simpa using hi
      have hdup' : t.getD j 0 ∈ q :: seen ∨ ∃ j2, j2 < j ∧ t.getD j2 0 = t.getD j 0 := by
        rcases hdup with h | ⟨j2, hj2, heq⟩
        · left
          exact List.mem_cons_of_mem _ (by simpa [List.getD_cons_succ] using h)
        · cases j2 with
          | zero =>
            left
            simp only [List.getD_cons_zero, List.getD_cons_succ] at heq
            exact List.mem_cons.mpr (Or.inl heq.symm)
          | succ j3 =>
            right
            refine ⟨j3, by omega, ?_⟩
            simpa [List.getD_cons_succ] using heq
      by_cases hqs : q ∈ seen
      · rw [reassignDups, if_pos hqs, List.getD_cons_succ]
        obtain ⟨k, hk, hk2⟩ := ih (q :: seen) (m + 1) j hi' hdup'
        exact ⟨k, hk, by omega⟩
      · rw [reassignDups, if_neg hqs, List.getD_cons_succ]
        exact ih (q :: seen) m j hi' hdup'

theorem countP_take_lt {xs : List (Option ℚ)} {j i : ℕ} (hj : j < i)
    (hji : j < xs.length) (h : xs.getD j none = none) :
    (xs.take j).countP (fun x => x.isNone)
      < (xs.take i).countP (fun x => x.isNone) := by
  have hgj : xs[j] = none := by
    rw [List.getD_eq_getElem xs none hji] at h
    exact h
  have h1 : (xs.take (j + 1)).countP (fun x => x.isNone)
      = (xs.take j).countP (fun x => x.isNone) + 1 := by
    rw [List.take_succ, List.countP_append, List.getElem?_eq_getElem hji, hgj]
    simp
  have hsub : (xs.take (j + 1)).Sublist (xs.take i) := by
    rw [show xs.take (j + 1) = (xs.take i).take (j + 1) by
      rw [List.take_take]
      congr 1
      omega]
    exact List.take_sublist _ _
  have h2 := hsub.countP_le (fun x => x.isNone)
  omega

theorem ensure_ids_eq_of_not_all (ids : List (Option ℚ))
    (h : ¬ ids.all (fun x => x.isNone) = true) :
    ensure_ids ids
      = (reassignDups
          (fillNone ids (pytrunc (listMax (ids.filterMap (fun x => x))))) []
          (pytrunc (listMax (ids.filterMap (fun x => x)))
            + (ids.countP (fun x => x.isNone) : ℤ))).map pytrunc := by
  rw [ensure_ids, if_neg h]

theorem somes_ne_nil_of_not_all (ids : List (Option ℚ))
    (h : ¬ ids.all (fun x => x.isNone) = true) :
    ids.filterMap (fun x => x) ≠ [] := by
  intro hnil
  apply h
  rw [List.all_eq_true]
  intro x hx
  cases x with
  | none => simp
  | some q =>
    exfalso
    have hq : q ∈ ids.filterMap (fun x => x) :=
      List.mem_filterMap.mpr ⟨some q, hx, rfl⟩
    rw [hnil] at hq
    cases hq

theorem mem_somes {ids : List (Option ℚ)} {q : ℚ} (h : some q ∈ ids) :
    q ∈ ids.filterMap (fun x => x) :=
  List.mem_filterMap.mpr ⟨some q, h, rfl⟩

theorem le_m0 {ids : List (Option ℚ)} (hint : intIds ids)
    (h : ¬ ids.all (fun x => x.isNone) = true) {q : ℚ} (hq : some q ∈ ids) :
    q ≤ ((pytrunc (listMax (ids.filterMap (fun x => x))) : ℤ) : ℚ) := by
  have hmem := listMax_mem (somes_ne_nil_of_not_all ids h)
  have hsome : some (listMax (ids.filterMap (fun x => x))) ∈ ids := by
    obtain ⟨x, hx, hxx⟩ := List.mem_filterMap.mp hmem
    rw [← hxx]
    exact hx
  rw [(hint _ hsome).cast_pytrunc]
  exact le_listMax (mem_somes hq)

theorem getD_map_pytrunc (l : List ℚ) (i : ℕ) (hi : i < l.length) :
    (l.map pytrunc).getD i 0 = pytrunc (l.getD i 0) := by
  induction l generalizing i with
  | nil => simp at hi
  | cons x t ih =>
    cases i with
    | zero => simp [List.getD_cons_zero]
    | succ j => simpa [List.getD_cons_succ] using ih j (by simpa using hi)

theorem ensure_ids_getD_keep (ids : List (Option ℚ)) (hint : intIds ids)
    (i : ℕ) (q : ℚ) (hi : i < ids.length) (hq : ids.getD i none = some q)
    (hfirst : ∀ j, j < i → ids.getD j none ≠ some q) :
    (((ensure_ids ids).getD i 0 : ℤ) : ℚ) = q := by
  have hsq : some q ∈ ids := by
    rw [List.getD_eq_getElem ids none hi] at hq
    rw [← hq]
    exact List.getElem_mem hi
  have hnot : ¬ ids.all (fun x => x.isNone) = true := by
    intro hall
    have := List.all_eq_true.mp hall _ hsq
    simp at this
  rw [ensure_ids_eq_of_not_all ids hnot]
  have hflen := fillNone_length ids (pytrunc (listMax (ids.filterMap (fun x => x))))
  have hrlen := reassignDups_length
    (fillNone ids (pytrunc (listMax (ids.filterMap (fun x => x))))) []
    (pytrunc (listMax (ids.filterMap (fun x => x)))
      + (ids.countP (fun x => x.isNone) : ℤ))
  have hfq : (fillNone ids (pytrunc (listMax (ids.filterMap (fun x => x))))).getD i 0
      = q := fillNone_getD_some ids _ i q hq
  have hkeep : (reassignDups
      (fillNone ids (pytrunc (listMax (ids.filterMap (fun x => x))))) []
      (pytrunc (listMax (ids.filterMap (fun x => x)))
        + (ids.countP (fun x => x.isNone) : ℤ))).getD i 0 = q := by
    rw [← hfq]
    apply reassignDups_getD_keep _ _ _ _ (by omega) (by simp)
    intro j hj
    rw [hfq]
    cases hj2 : ids.getD j none with
    | some p =>
      rw [fillNone_getD_some ids _ j p hj2]
      intro hc
      subst hc
      exact hfirst j hj hj2
    | none =>
      rw [fillNone_getD_none ids _ j (by omega) hj2]
      intro hc
      have hle : q ≤ ((pytrunc (listMax (ids.filterMap (fun x => x))) : ℤ) : ℚ) :=
        le_m0 hint hnot hsq
      rw [← hc] at hle
      have : pytrunc (listMax (ids.filterMap (fun x => x))) + 1
          + ((ids.take j).countP (fun x => x.isNone) : ℤ)
          ≤ pytrunc (listMax (ids.filterMap (fun x => x))) := by exact_mod_cast hle
      omega
  rw [getD_map_pytrunc _ _ (by omega), hkeep]
  exact (hint q hsq).cast_pytrunc

theorem ensure_ids_getD_fresh (ids : List (Option ℚ)) (hint : intIds ids)
    (i : ℕ) (hi : i < ids.length)
    (hrep : ids.getD i none = none
      ∨ ∃ j, j < i ∧ ∃ p : ℚ, ids.getD j none = some p ∧ ids.getD i none = some p) :
    ∀ q : ℚ, some q ∈ ids → q < (((ensure_ids ids).getD i 0 : ℤ) : ℚ) := by
  intro q hqmem
  have hnot : ¬ ids.all (fun x => x.isNone) = true := by
    intro hall
    have := List.all_eq_true.mp hall _ hqmem
    simp at this
  have hle : q ≤ ((pytrunc (listMax (ids.filterMap (fun x => x))) : ℤ) : ℚ) :=
    le_m0 hint hnot hqmem
  rw [ensure_ids_eq_of_not_all ids hnot]
  have hflen := fillNone_length ids (pytrunc (listMax (ids.filterMap (fun x => x))))
  have hrlen := reassignDups_length
    (fillNone ids (pytrunc (listMax (ids.filterMap (fun x => x))))) []
    (pytrunc (listMax (ids.filterMap (fun x => x)))
      + (ids.countP (fun x => x.isNone) : ℤ))
  rw [getD_map_pytrunc _ _ (by omega)]
  rcases hrep with hni | ⟨j, hj, p, hpj, hpi⟩
  · have hfi := fillNone_getD_none ids
      (pytrunc (listMax (ids.filterMap (fun x => x)))) i hi hni
    have hkeep : (reassignDups
        (fillNone ids (pytrunc (listMax (ids.filterMap (fun x => x))))) []
        (pytrunc (listMax (ids.filterMap (fun x => x)))
          + (ids.countP (fun x => x.isNone) : ℤ))).getD i 0
        = (fillNone ids (pytrunc (listMax (ids.filterMap (fun x => x))))).getD i 0 := by
      apply reassignDups_getD_keep _ _ _ _ (by omega) (by simp)
      intro j2 hj2
      rw [hfi]
      cases hj2' : ids.getD j2 none with
      | some p2 =>
        rw [fillNone_getD_some ids _ j2 p2 hj2']
        have hp2mem : some p2 ∈ ids := by
          rw [List.getD_eq_getElem ids none (show j2 < ids.length by omega)] at hj2'
          rw [← hj2']
          exact List.getElem_mem _
        have hp2le : p2 ≤ ((pytrunc (listMax (ids.filterMap (fun x => x))) : ℤ) : ℚ) :=
          le_m0 hint hnot hp2mem
        intro hc
        rw [hc] at hp2le
        have : pytrunc (listMax (ids.filterMap (fun x => x))) + 1
            + ((ids.take i).countP (fun x => x.isNone) : ℤ)
            ≤ pytrunc (listMax (ids.filterMap (fun x => x))) := by exact_mod_cast hp2le
        omega
      | none =>
        rw [fillNone_getD_none ids _ j2 (by omega) hj2']
        intro hc
        have hlt := countP_take_lt hj2 (show j2 < ids.length by omega) hj2'
        have hcast : pytrunc (listMax (ids.filterMap (fun x => x))) + 1
            + ((ids.take j2).countP (fun x => x.isNone) : ℤ)
            = pytrunc (listMax (ids.filterMap (fun x => x))) + 1
              + ((ids.take i).countP (fun x => x.isNone) : ℤ) := by exact_mod_cast hc
        omega
    rw [hkeep, hfi, pytrunc_intCast]
    have h1 : ((pytrunc (listMax (ids.filterMap (fun x => x))) : ℤ) : ℚ)
        < ((pytrunc (listMax (ids.filterMap (fun x => x))) + 1
            + ((ids.take i).countP (fun x => x.isNone) : ℤ) : ℤ) : ℚ) := by
      push_cast
      have h0 : (0 : ℚ) ≤ (((ids.take i).countP (fun x => x.isNone) : ℕ) : ℚ) := by
        positivity
      linarith
    linarith
  · have hfj := fillNone_getD_some ids
      (pytrunc (listMax (ids.filterMap (fun x => x)))) j p hpj
    have hfi := fillNone_getD_some ids
      (pytrunc (listMax (ids.filterMap (fun x => x)))) i p hpi
    obtain ⟨k, hk, hk2⟩ := reassignDups_getD_replaced
      (fillNone ids (pytrunc (listMax (ids.filterMap (fun x => x))))) []
      (pytrunc (listMax (ids.filterMap (fun x => x)))
        + (ids.countP (fun x => x.isNone) : ℤ)) i (by omega)
      (Or.inr ⟨j, hj, by rw [hfj, hfi]⟩)
    rw [hk, pytrunc_intCast]
    have hm01 : pytrunc (listMax (ids.filterMap (fun x => x)))
        ≤ pytrunc (listMax (ids.filterMap (fun x => x)))
          + (ids.countP (fun x => x.isNone) : ℤ) := by omega
    have h2 : ((pytrunc (listMax (ids.filterMap (fun x => x))) : ℤ) : ℚ)
        ≤ ((pytrunc (listMax (ids.filterMap (fun x => x)))
            + (ids.countP (fun x => x.isNone) : ℤ) : ℤ) : ℚ) := by exact_mod_cast hm01
    have h3 : ((pytrunc (listMax (ids.filterMap (fun x => x)))
        + (ids.countP (fun x => x.isNone) : ℤ) : ℤ) : ℚ) < ((k : ℤ) : ℚ) := by
      exact_mod_cast hk2
    linarith

theorem nodup_map_pytrunc {l : List ℚ} (hl : ∀ v ∈ l, isIntQ v)
    (hnd : l.Nodup) : (l.map pytrunc).Nodup := by
  apply List.Nodup.map_on ?_ hnd
  intro x hx y hy hxy
  calc x = ((pytrunc x : ℤ) : ℚ) := ((hl x hx).cast_pytrunc).symm
    _ = ((pytrunc y : ℤ) : ℚ) := by rw [hxy]
    _ = y := (hl y hy).cast_pytrunc

theorem ensure_ids_length (ids : List (Option ℚ)) :
    (ensure_ids ids).length = ids.length := by
  rw [ensure_ids]
  split
  · rw [List.length_map, List.length_range]
  · rw [List.length_map, reassignDups_length, fillNone_length]

theorem ensure_ids_nodup (ids : List (Option ℚ)) (hint : intIds ids) :
    (ensure_ids ids).Nodup := by
  by_cases hall : ids.all (fun x => x.isNone) = true
  · rw [ensure_ids, if_pos hall]
    refine List.Nodup.map ?_ (List.nodup_range _)
    intro a b hab
    have hab2 : (a : ℤ) + 1 = (b : ℤ) + 1 := hab
    omega
  · rw [ensure_ids_eq_of_not_all ids hall]
    apply nodup_map_pytrunc
    · intro v hv
      rcases mem_reassignDups hv with ⟨h1, -⟩ | ⟨k, rfl, -⟩
      · rcases mem_fillNone h1 with h2 | ⟨k, rfl, -, -⟩
        · exact hint v h2
        · exact ⟨k, rfl⟩
      · exact ⟨k, rfl⟩
    · apply reassignDups_nodup
      intro v hv
      rcases mem_fillNone hv with h2 | ⟨k, rfl, hk1, hk2⟩
      · have hv0 := le_m0 hint hall h2
        have hcast : ((pytrunc (listMax (ids.filterMap (fun x => x))) : ℤ) : ℚ)
            ≤ ((pytrunc (listMax (ids.filterMap (fun x => x)))
                + (ids.countP (fun x => x.isNone) : ℤ) : ℤ) : ℚ) := by
          exact_mod_cast (by omega : pytrunc (listMax (ids.filterMap (fun x => x)))
            ≤ pytrunc (listMax (ids.filterMap (fun x => x)))
              + (ids.countP (fun x => x.isNone) : ℤ))
        linarith
      · exact_mod_cast hk2

theorem zipWith_mk_map_id (is : List ℤ) (rs : List RawEvent)
    (h : is.length = rs.length) :
    (List.zipWith
      (fun i r => ({ id := i, estatus := fillStatus r.estatus } : NormEvent))
      is rs).map (fun e => e.id) = is := by
  induction is generalizing rs with
  | nil => rfl
  | cons i it ih =>
    cases rs with
    | nil => simp at h
    | cons r rt =>
      simp only [List.zipWith_cons_cons, List.map_cons]
      rw [ih rt (by simpa using h)]

theorem ensure_eventlog_ids (rows : List RawEvent) :
    (ensure_eventlog_columns rows).map (fun e => e.id)
      = ensure_ids (rows.map (fun r => r.id)) := by
  rw [ensure_eventlog_columns]
  apply zipWith_mk_map_id
  rw [ensure_ids_length, List.length_map]

/-- C2, corrected.  After normalization (`ensure_eventlog_columns`) the id
column consists of non-null integers, and — provided every non-null raw id is
an integral numeric (the claim fails for fractional ids only because the
final `astype(int)` truncation at line 101 happens after duplicate detection;
see the counterexample) — these integers are pairwise distinct, every row
whose id was null or a non-first duplicate receives an id strictly greater
than every pre-existing id, and every row holding the first or only
occurrence of its id keeps it unchanged. -/
theorem eventlog_id_normalization (rows : List RawEvent)
    (hint : intIds (rows.map (fun r => r.id))) :
    ((ensure_eventlog_columns rows).map (fun e => e.id)).length = rows.length ∧
    ((ensure_eventlog_columns rows).map (fun e => e.id)).Nodup ∧
    (∀ i, i < rows.length → ∀ q : ℚ,
      (rows.map (fun r => r.id)).getD i none = some q →
      ((∀ j, j < i → (rows.map (fun r => r.id)).getD j none ≠ some q) →
        ((((ensure_eventlog_columns rows).map (fun e => e.id)).getD i 0 : ℤ) : ℚ)
          = q) ∧
      ((∃ j, j < i ∧ (rows.map (fun r => r.id)).getD j none = some q) →
        ∀ p : ℚ, some p ∈ rows.map (fun r => r.id) →
          p < ((((ensure_eventlog_columns rows).map (fun e => e.id)).getD i 0 : ℤ)
            : ℚ))) ∧
    (∀ i, i < rows.length → (rows.map (fun r => r.id)).getD i none = none →
      ∀ p : ℚ, some p ∈ rows.map (fun r => r.id) →
        p < ((((ensure_eventlog_columns rows).map (fun e => e.id)).getD i 0 : ℤ)
          : ℚ)) := by
  rw [ensure_eventlog_ids]
  have hlen : (rows.map (fun r => r.id)).length = rows.length :=
    List.length_map rows (fun r => r.id)
  refine ⟨by rw [ensure_ids_length, hlen], ensure_ids_nodup _ hint, ?_, ?_⟩
  · intro i hi q hq
    constructor
    · intro hfirst
      exact ensure_ids_getD_keep _ hint i q (by rw [hlen]; exact hi) hq hfirst
    · rintro ⟨j, hj, hjq⟩ p hp
      exact ensure_ids_getD_fresh _ hint i (by rw [hlen]; exact hi)
        (Or.inr ⟨j, hj, q, hjq, hq⟩) p hp
  · intro i hi hnone p hp
    exact ensure_ids_getD_fresh _ hint i (by rw [hlen]; exact hi)
      (Or.inl hnone) p hp

/-- Counterexample for C2 as stated: raw ids 2.5 and 2 are distinct, yet
`astype(int)` truncates them both to 2 after the duplicate check, so the
normalized id column is not unique. -/
theorem eventlog_id_normalization_cex :
    ¬ ((ensure_eventlog_columns
        [⟨some (Rat.divInt 5 2), none⟩, ⟨some 2, none⟩]).map
          (fun e => e.id)).Nodup := by
  decide

/-- Witness for the corrected C2 at the spec's example ids {3, 3, null, 7}:
the output ids are unique and the first row keeps its id 3. -/
theorem eventlog_id_normalization_witness :
    ((ensure_eventlog_columns [⟨some 3, none⟩, ⟨some 3, none⟩, ⟨none, none⟩,
        ⟨some 7, none⟩]).map (fun e => e.id)).Nodup ∧
    ((((ensure_eventlog_columns [⟨some 3, none⟩, ⟨some 3, none⟩, ⟨none, none⟩,
        ⟨some 7, none⟩]).map (fun e => e.id)).getD 0 0 : ℤ) : ℚ) = 3 := by
  have hint : intIds (([⟨some 3, none⟩, ⟨some 3, none⟩, ⟨none, none⟩,
      ⟨some 7, none⟩] : List RawEvent).map (fun r => r.id)) := by
    intro q hq
    simp only [List.map_cons, List.map_nil, List.mem_cons, List.not_mem_nil,
      or_false] at hq
    rcases hq with h | h | h | h
    · exact ⟨3, by injection h⟩
    · exact ⟨3, by injection h⟩
    · exact Option.noConfusion h
    · exact ⟨7, by injection h⟩
  have h := eventlog_id_normalization _ hint
  exact ⟨h.2.1, (h.2.2.1 0 (by norm_num) 3 rfl).1
    (fun j hj => absurd hj (Nat.not_lt_zero j))⟩

/-! ## Lemmas: re-normalization (idempotence) -/

theorem filterMap_map_some (l : List ℤ) :
    (l.map (fun n => some ((n : ℤ) : ℚ))).filterMap (fun x => x)
      = l.map (fun n => ((n : ℤ) : ℚ)) := by
  induction l with
  | nil => rfl
  | cons n t ih => simp only [List.map_cons, List.filterMap_cons]; rw [ih]

theorem fillNone_map_some (l : List ℚ) (m : ℤ) : fillNone (l.map some) m = l := by
  induction l generalizing m with
  | nil => rfl
  | cons q t ih => simp [fillNone, ih]

theorem reassignDups_id (l : List ℚ) (seen : List ℚ) (m : ℤ) (hnd : l.Nodup)
    (hdisj : ∀ v ∈ l, v ∉ seen) : reassignDups l seen m = l := by
  induction l generalizing seen m with
  | nil => rfl
  | cons q t ih =>
    have hq : q ∉ seen := hdisj q (List.mem_cons_self _ _)
    rw [reassignDups, if_neg hq]
    congr 1
    rcases List.nodup_cons.mp hnd with ⟨hqt, hndt⟩
    apply ih _ _ hndt
    intro v hv hc
    rcases List.mem_cons.mp hc with rfl | hc2
    · exact hqt hv
    · exact hdisj v (List.mem_cons_of_mem _ hv) hc2

theorem map_pytrunc_cast (l : List ℤ) :
    (l.map (fun n => ((n : ℤ) : ℚ))).map pytrunc = l := by
  induction l with
  | nil => rfl
  | cons n t ih => simp [pytrunc_intCast, ih]

theorem ensure_ids_int_nodup (l : List ℤ) (hnd : l.Nodup) :
    ensure_ids (l.map (fun n => some ((n : ℤ) : ℚ))) = l := by
  cases l with
  | nil => rfl
  | cons n t =>
    have hnot : ¬ ((n :: t).map (fun x => some ((x : ℤ) : ℚ))).all
        (fun x => x.isNone) = true := by simp
    rw [ensure_ids_eq_of_not_all _ hnot, filterMap_map_some]
    rw [show ((n :: t).map (fun x => some ((x : ℤ) : ℚ)))
        = ((n :: t).map (fun x => ((x : ℤ) : ℚ))).map some from by
      rw [List.map_map]
      rfl]
    rw [fillNone_map_some]
    have hcast_nd : ((n :: t).map (fun x => ((x : ℤ) : ℚ))).Nodup :=
      hnd.map (fun a b h => by exact_mod_cast h)
    rw [reassignDups_id _ [] _ hcast_nd (fun v hv hc => by cases hc)]
    exact map_pytrunc_cast _

theorem fillStatus_ne_empty (s : Option String) : fillStatus s ≠ "" := by
  cases s with
  | none => simp [fillStatus]
  | some t =>
    by_cases ht : t = ""
    · subst ht
      simp [fillStatus]
    · simp [fillStatus, ht]

theorem fillStatus_idem (s : Option String) :
    fillStatus (some (fillStatus s)) = fillStatus s := by
  rw [show fillStatus (some (fillStatus s))
    = if fillStatus s = "" then "Pendiente" else fillStatus s from rfl]
  rw [if_neg (fillStatus_ne_empty s)]

theorem ensure_eventlog_estatus (rows : List RawEvent) (e : NormEvent)
    (he : e ∈ ensure_eventlog_columns rows) : ∃ s, e.estatus = fillStatus s := by
  rw [ensure_eventlog_columns] at he
  obtain ⟨n, hn, hget⟩ := List.getElem_of_mem he
  rw [List.getElem_zipWith] at hget
  exact ⟨_, by rw [← hget]⟩

/-- C10, corrected.  Re-normalizing an already-normalized Event table is the
identity — same ids, same statuses — provided every non-null raw id was
integral.  (For fractional raw ids the first pass can itself produce
duplicate ids, which the second pass then renumbers; see the
counterexample.) -/
theorem normalizer_idempotent (rows : List RawEvent)
    (hint : intIds (rows.map (fun r => r.id))) :
    ensure_eventlog_columns ((ensure_eventlog_columns rows).map normToRaw)
      = ensure_eventlog_columns rows := by
  have hnd : ((ensure_eventlog_columns rows).map (fun e => e.id)).Nodup := by
    rw [ensure_eventlog_ids]
    exact ensure_ids_nodup _ hint
  have hids2 : ((ensure_eventlog_columns rows).map normToRaw).map (fun r => r.id)
      = ((ensure_eventlog_columns rows).map (fun e => e.id)).map
          (fun n => some ((n : ℤ) : ℚ)) := by
    rw [List.map_map, List.map_map]
    rfl
  conv_lhs => rw [ensure_eventlog_columns]
  rw [hids2, ensure_ids_int_nodup _ hnd]
  apply List.ext_getElem
  · simp [List.length_zipWith]
  · intro n h1 h2
    rw [List.getElem_zipWith, List.getElem_map, List.getElem_map]
    obtain ⟨s, hs⟩ := ensure_eventlog_estatus rows
      ((ensure_eventlog_columns rows)[n]) (List.getElem_mem _)
    rw [normToRaw, hs, fillStatus_idem, ← hs]

/-- Counterexample for C10 as stated: raw ids 2.5 and 2 normalize to ids
[2, 2]; re-normalizing that output renumbers the duplicate to [2, 3], so the
second pass is not the identity. -/
theorem normalizer_idempotent_cex :
    ensure_eventlog_columns ((ensure_eventlog_columns
        [⟨some (Rat.divInt 5 2), none⟩, ⟨some 2, none⟩]).map normToRaw)
      ≠ ensure_eventlog_columns
          [⟨some (Rat.divInt 5 2), none⟩, ⟨some 2, none⟩] := by
  decide

/-- Witness for the corrected C10 at a concrete input with a duplicate id, a
null id, a missing status, an explicit status, and an empty-string status. -/
theorem normalizer_idempotent_witness :
    ensure_eventlog_columns ((ensure_eventlog_columns
        [⟨some 3, none⟩, ⟨some 3, some "Efectuado"⟩, ⟨none, some ""⟩]).map
          normToRaw)
      = ensure_eventlog_columns
          [⟨some 3, none⟩, ⟨some 3, some "Efectuado"⟩, ⟨none, some ""⟩] := by
  apply normalizer_idempotent
  intro q hq
  simp only [List.map_cons, List.map_nil, List.mem_cons, List.not_mem_nil,
    or_false] at hq
  rcases hq with h | h | h
  · exact ⟨3, by injection h⟩
  · exact ⟨3, by injection h⟩
  · exact Option.noConfusion h

end GameBus
